import Mathlib

/-!
# QLight token manager plugin: a shallow embedding of `main.go`

The development follows the Go source top-down.

* Go `string` and `[]byte` values are lists of bytes (`GoString`); a byte is a natural number
  below 256, and every function that inspects a byte treats a larger number the way it treats a
  byte that is not part of its alphabet.
* Go machine integers are `Int`s, wrapped with `wrap64` wherever the Go operation can overflow.
* The standard-library functions that `main.go` calls (`strings.Index`, `strings.Split`,
  `strings.Replace`, `base64.RawStdEncoding.DecodeString`, `json.Unmarshal`, `time.Unix`,
  `time.Since`) are embedded from the Go standard library, under their Go names; so is
  `json.Marshal`, the encoding of a configuration.
* The network, the clock and the iteration order of `range` over a map are the environment
  (`Env`) of a call; a call of a handler method returns or panics (`Outcome`).
-/

namespace QLight

/-! ## Bytes and strings -/

/-- Go `string` / `[]byte`: a list of bytes, each a natural number below 256. -/
abbrev GoString := List Nat

/-- The bytes of an ASCII literal. -/
def ascii (s : String) : GoString := s.toList.map Char.toNat

/-- Go `strings.HasPrefix(s, p)`. -/
def HasPrefix : GoString → GoString → Bool
  | _, [] => true
  | [], _ :: _ => false
  | c :: s, p :: ps => c == p && HasPrefix s ps

/-- Go `strings.Index(s, substr)`: the index of the first instance of `substr` in `s`, or `-1`. -/
def Index : GoString → GoString → Int
  | [], substr => if substr = [] then 0 else -1
  | c :: s, substr =>
    if HasPrefix (c :: s) substr then 0
    else
      let r := Index s substr
      if r < 0 then -1 else r + 1

/-- The loop of `strings.Count` for a separator of two bytes or more:
`for { i := Index(s, substr); if i == -1 { return n }; n++; s = s[i+len(substr):] }`.
The first argument bounds the number of iterations. -/
def countLoop (substr : GoString) : Nat → GoString → Int → Int
  | 0, _, n => n
  | fuel + 1, s, n =>
    let i := Index s substr
    if i = -1 then n
    else countLoop substr fuel (s.drop (i.toNat + substr.length)) (n + 1)

/-- Go `strings.Count(s, substr)` for a non-empty `substr` (the callers pass `"."` and the
placeholder marker): the number of non-overlapping instances of `substr` in `s`. A one-byte
`substr` is counted byte by byte (`bytealg.CountString`). -/
def Count (s substr : GoString) : Int :=
  match substr with
  | [b] => (s.count b : Int)
  | _ => countLoop substr (s.length + 1) s 0

/-- The loop of `strings.genSplit`:
`for i < n { m := Index(s, sep); if m < 0 { break }; a[i] = s[:m]; s = s[m+len(sep):]; i++ }`
followed by `a[i] = s; return a[:i+1]`. The first argument is `n - i`. -/
def splitLoop (sep : GoString) : Nat → GoString → List GoString
  | 0, s => [s]
  | k + 1, s =>
    let m := Index s sep
    if m < 0 then [s]
    else s.take m.toNat :: splitLoop sep k (s.drop (m.toNat + sep.length))

/-- Go `strings.Split(s, sep)` for a non-empty `sep`, that is `genSplit(s, sep, 0, -1)`. -/
def Split (s sep : GoString) : List GoString :=
  let n := Count s sep + 1
  let n := if n > (s.length : Int) + 1 then (s.length : Int) + 1 else n
  splitLoop sep (n - 1).toNat s

/-- The replacement loop of `strings.Replace`:
`for i := 0; i < n; i++ { j := start + Index(s[start:], old); b.WriteString(s[start:j]);
b.WriteString(new); start = j + len(old) }; b.WriteString(s[start:])`.
The first argument is `n - i`, the second is `s[start:]`. -/
def replaceLoop (old new : GoString) : Nat → GoString → GoString
  | 0, s => s
  | k + 1, s =>
    let j := (Index s old).toNat
    s.take j ++ new ++ replaceLoop old new k (s.drop (j + old.length))

/-- Go `strings.Replace(s, old, new, n)` for a non-empty `old`. -/
def Replace (s old new : GoString) (n : Int) : GoString :=
  if old = new ∨ n = 0 then s
  else
    let m := Count s old
    if m = 0 then s
    else
      let n := if n < 0 ∨ m < n then m else n
      replaceLoop old new n.toNat s

/-! ## Machine integers and `time` -/

/-- The value of an `int64` after an operation whose mathematical result is `x`. -/
def wrap64 (x : Int) : Int := (x + 9223372036854775808) % 18446744073709551616 - 9223372036854775808

/-- Go integer division, truncating toward zero, by a positive divisor. -/
def quo (a b : Int) : Int := if 0 ≤ a then a / b else -((-a) / b)

/-- Go integer remainder, with the sign of the dividend. -/
def rem (a b : Int) : Int := a - b * quo a b

/-- Go `time.Millisecond`, in nanoseconds. -/
def Millisecond : Int := 1000000

/-- Go `time.Second`, in nanoseconds. -/
def Second : Int := 1000000000

/-- Go `time.minDuration`. -/
def minDuration : Int := -9223372036854775808

/-- Go `time.maxDuration`. -/
def maxDuration : Int := 9223372036854775807

/-- Go `time.unixToInternal`: the seconds from January 1, year 1 to January 1, 1970. -/
def unixToInternal : Int := 62135596800

/-- Go `time.Time` without a monotonic reading: `sec` is `t.sec()`, the `int64` count of seconds
since January 1, year 1, and `nsec` is `t.nsec()`, in `[0, 999999999]`. -/
structure Time where
  sec : Int
  nsec : Int
deriving DecidableEq, Repr

/-- Go `time.unixTime(sec, nsec)`: `Time{uint64(nsec), sec + unixToInternal, Local}`. The sum is
an `int64`: it wraps for `sec` above `1<<63 - 1 - unixToInternal` ("not all sec values have a
corresponding time value", as the documentation of `time.Unix` puts it). -/
def unixTime (sec nsec : Int) : Time := ⟨wrap64 (sec + unixToInternal), nsec⟩

/-- Go `time.Unix(sec, nsec)`. -/
def Unix (sec nsec : Int) : Time :=
  if nsec < 0 ∨ nsec ≥ 1000000000 then
    let n := quo nsec 1000000000
    let sec := wrap64 (sec + n)
    let nsec := wrap64 (nsec - wrap64 (n * 1000000000))
    if nsec < 0 then unixTime (wrap64 (sec - 1)) (nsec + 1000000000)
    else unixTime sec nsec
  else unixTime sec nsec

/-- Go `(*Time).addSec(d)` for a time without a monotonic reading: the sum saturates. -/
def Time.addSec (t : Time) (d : Int) : Time :=
  let sum := wrap64 (t.sec + d)
  if (decide (sum > t.sec)) = (decide (d > 0)) then { t with sec := sum }
  else if d > 0 then { t with sec := 9223372036854775807 }
  else { t with sec := -9223372036854775807 }

/-- Go `Time.Add(d)`. -/
def Time.Add (t : Time) (d : Int) : Time :=
  let dsec := quo d 1000000000
  let nsec := t.nsec + rem d 1000000000
  if nsec ≥ 1000000000 then ({ t with nsec := nsec - 1000000000 } : Time).addSec (wrap64 (dsec + 1))
  else if nsec < 0 then ({ t with nsec := nsec + 1000000000 } : Time).addSec (wrap64 (dsec - 1))
  else ({ t with nsec := nsec } : Time).addSec dsec

/-- Go `Time.Equal(u)`. -/
def Time.Equal (t u : Time) : Bool := t.sec == u.sec && t.nsec == u.nsec

/-- Go `Time.Before(u)`. -/
def Time.Before (t u : Time) : Bool :=
  decide (t.sec < u.sec) || (t.sec == u.sec && decide (t.nsec < u.nsec))

/-- Go `Time.Sub(u)`: the duration `t - u` in nanoseconds, saturated at the ends of `int64`. -/
def Time.Sub (t u : Time) : Int :=
  let d := wrap64 (wrap64 (wrap64 (t.sec - u.sec) * Second) + (t.nsec - u.nsec))
  if (u.Add d).Equal t then d
  else if t.Before u then minDuration
  else maxDuration

/-- Go `time.Since(t)`, that is `time.Now().Sub(t)`, with the reading of the clock made explicit. -/
def Since (now t : Time) : Int := now.Sub t

/-! ## `encoding/base64` -/

/-- The decode map of Go `base64.StdEncoding`: the value of a byte of the alphabet
`A-Z a-z 0-9 + /`, and `0xff` for every other byte. -/
def decodeMap (c : Nat) : Nat :=
  if 65 ≤ c ∧ c ≤ 90 then c - 65
  else if 97 ≤ c ∧ c ≤ 122 then c - 97 + 26
  else if 48 ≤ c ∧ c ≤ 57 then c - 48 + 52
  else if c = 43 then 62
  else if c = 47 then 63
  else 255

/-- The result of Go `(*Encoding).decodeQuantum`: the input left and the bytes written, or a
`CorruptInputError` (with no byte written). -/
inductive Quantum where
  | ok (rest : GoString) (out : GoString)
  | corrupt
deriving DecidableEq, Repr

/-- The end of `decodeQuantum`: the sextets collected (`dlen` of them, at least two) are converted
into `dlen - 1` bytes. `RawStdEncoding` is not strict, so the unused low bits are dropped. -/
def assemble (dbuf : List Nat) (rest : GoString) : Quantum :=
  let val := dbuf.getD 0 0 * 262144 + dbuf.getD 1 0 * 4096 + dbuf.getD 2 0 * 64 + dbuf.getD 3 0
  let bytes := [val / 65536 % 256, val / 256 % 256, val % 256]
  Quantum.ok rest (bytes.take (dbuf.length - 1))

/-- Go `(*Encoding).decodeQuantum` for `RawStdEncoding` (no padding character, not strict), on the
input that is left; `dbuf` holds the sextets read so far (`j` of them). A line feed or carriage
return is skipped, every other byte outside the alphabet is a `CorruptInputError`. -/
def decodeQuantum : GoString → List Nat → Quantum
  | [], dbuf =>
    match dbuf.length with
    | 0 => Quantum.ok [] []
    | 1 => Quantum.corrupt
    | _ => assemble dbuf []
  | c :: src, dbuf =>
    if decodeMap c ≠ 255 then
      if dbuf.length = 3 then assemble (dbuf ++ [decodeMap c]) src
      else decodeQuantum src (dbuf ++ [decodeMap c])
    else if c = 10 ∨ c = 13 then decodeQuantum src dbuf
    else Quantum.corrupt

/-- Go `(*Encoding).Decode` for `RawStdEncoding`: quantum after quantum until the input is used up
or corrupt. The 8-byte and 4-byte fast paths of the Go code decode the same quanta, and fall back
to `decodeQuantum` on every byte they do not accept. Returns the bytes written and whether an
error was returned. -/
def decodeLoop : Nat → GoString → GoString → GoString × Bool
  | 0, _, acc => (acc, false)
  | fuel + 1, src, acc =>
    if src = [] then (acc, false)
    else
      match decodeQuantum src [] with
      | Quantum.corrupt => (acc, true)
      | Quantum.ok rest out => decodeLoop fuel rest (acc ++ out)

/-- Go `base64.RawStdEncoding.DecodeString(s)`: `dbuf[:n], err`. Together with an error it returns
the bytes decoded before the error. -/
def DecodeString (s : GoString) : GoString × Bool := decodeLoop s.length s []

/-! ## `unicode/utf8` -/

/-- Go `utf8.RuneError`, U+FFFD. -/
def RuneError : Nat := 65533

/-- A UTF-8 continuation byte, `0x80-0xBF`. -/
def isCont (b : Nat) : Bool := decide (128 ≤ b ∧ b ≤ 191)

/-- Go `utf8.DecodeRune(p)`: the first rune of `p` and its width in bytes; `(RuneError, 1)` for an
invalid encoding and `(RuneError, 0)` for the empty input. The case analysis is the one of the
`first` and `acceptRanges` tables. -/
def DecodeRune : GoString → Nat × Nat
  | [] => (RuneError, 0)
  | p0 :: rest =>
    if p0 < 128 then (p0, 1)
    else if p0 < 194 then (RuneError, 1)
    else if p0 < 224 then
      match rest with
      | b1 :: _ => if isCont b1 then ((p0 % 32) * 64 + b1 % 64, 2) else (RuneError, 1)
      | _ => (RuneError, 1)
    else if p0 < 240 then
      match rest with
      | b1 :: b2 :: _ =>
        let lo := if p0 = 224 then 160 else 128
        let hi := if p0 = 237 then 159 else 191
        if lo ≤ b1 ∧ b1 ≤ hi ∧ isCont b2 then
          ((p0 % 16) * 4096 + (b1 % 64) * 64 + b2 % 64, 3)
        else (RuneError, 1)
      | _ => (RuneError, 1)
    else if p0 < 245 then
      match rest with
      | b1 :: b2 :: b3 :: _ =>
        let lo := if p0 = 240 then 144 else 128
        let hi := if p0 = 244 then 143 else 191
        if lo ≤ b1 ∧ b1 ≤ hi ∧ isCont b2 ∧ isCont b3 then
          ((p0 % 8) * 262144 + (b1 % 64) * 4096 + (b2 % 64) * 64 + b3 % 64, 4)
        else (RuneError, 1)
      | _ => (RuneError, 1)
    else (RuneError, 1)

/-- Go `utf8.EncodeRune`: the UTF-8 encoding of a rune; a surrogate or a value above U+10FFFF is
encoded as `RuneError`. -/
def EncodeRune (r : Nat) : GoString :=
  if r < 128 then [r]
  else if r < 2048 then [192 + r / 64, 128 + r % 64]
  else if r > 1114111 ∨ (55296 ≤ r ∧ r ≤ 57343) then [239, 191, 189]
  else if r < 65536 then [224 + r / 4096, 128 + r / 64 % 64, 128 + r % 64]
  else [240 + r / 262144, 128 + r / 4096 % 64, 128 + r / 64 % 64, 128 + r % 64]

/-! ## `encoding/json`: the scanner

`json.Unmarshal` first checks the whole input with the scanner (`checkValid`) and only then
decodes. The embedding reads the input into a syntax tree (`JValue`) exactly when the scanner
accepts it, and the decoders below walk that tree in the order of the input. -/

/-- The JSON white space of the Go scanner (`isSpace`): space, tab, carriage return, line feed. -/
def isSpace (c : Nat) : Bool := decide (c = 32 ∨ c = 9 ∨ c = 13 ∨ c = 10)

/-- A decimal digit. -/
def isDigit (c : Nat) : Bool := decide (48 ≤ c ∧ c ≤ 57)

/-- A hexadecimal digit, in either case. -/
def isHex (c : Nat) : Bool :=
  decide ((48 ≤ c ∧ c ≤ 57) ∨ (97 ≤ c ∧ c ≤ 102) ∨ (65 ≤ c ∧ c ≤ 70))

/-- The value of a hexadecimal digit (`getu4`). -/
def hexVal (c : Nat) : Nat :=
  if 48 ≤ c ∧ c ≤ 57 then c - 48
  else if 97 ≤ c ∧ c ≤ 102 then c - 97 + 10
  else c - 65 + 10

/-- Drops leading white space. -/
def skipSpace : GoString → GoString
  | [] => []
  | c :: s => if isSpace c then skipSpace s else c :: s

/-- The states of the Go scanner inside a string literal: `stateInString`, `stateInStringEsc`
and `stateInStringEscU` to `stateInStringEscU123` (`u k`: `k` more hexadecimal digits). -/
inductive StrState where
  | inString
  | esc
  | u (k : Nat)
deriving DecidableEq, Repr

/-- The Go scanner on a string literal, after the opening quote: the bytes up to the closing
quote (still escaped) and the input after it. A control byte, an unknown escape or the end of the
input is a syntax error. -/
def scanStr : StrState → GoString → Option (GoString × GoString)
  | _, [] => none
  | StrState.inString, c :: s =>
    if c = 34 then some ([], s)
    else if c = 92 then (scanStr StrState.esc s).map (fun r => (c :: r.1, r.2))
    else if c < 32 then none
    else (scanStr StrState.inString s).map (fun r => (c :: r.1, r.2))
  | StrState.esc, c :: s =>
    if c = 98 ∨ c = 102 ∨ c = 110 ∨ c = 114 ∨ c = 116 ∨ c = 92 ∨ c = 47 ∨ c = 34 then
      (scanStr StrState.inString s).map (fun r => (c :: r.1, r.2))
    else if c = 117 then (scanStr (StrState.u 4) s).map (fun r => (c :: r.1, r.2))
    else none
  | StrState.u k, c :: s =>
    if isHex c then
      (scanStr (if k ≤ 1 then StrState.inString else StrState.u (k - 1)) s).map
        (fun r => (c :: r.1, r.2))
    else none

/-- Go `getu4(s)`: the rune of a `\uXXXX` escape at the start of `s`, or `-1`. -/
def getu4 : GoString → Int
  | 92 :: 117 :: h1 :: h2 :: h3 :: h4 :: _ =>
    if isHex h1 ∧ isHex h2 ∧ isHex h3 ∧ isHex h4 then
      ((hexVal h1 * 4096 + hexVal h2 * 256 + hexVal h3 * 16 + hexVal h4 : Nat) : Int)
    else -1
  | _ => -1

/-- Go `unquoteBytes` on the bytes between the quotes of a literal: escapes are resolved, a
`\u` surrogate pair is combined, a lone surrogate and every invalid UTF-8 byte become U+FFFD.
`none` is the Go `ok == false`. The first argument bounds the number of steps. -/
def unquoteLoop : Nat → GoString → Option GoString
  | 0, s => if s = [] then some [] else none
  | fuel + 1, s =>
    match s with
    | [] => some []
    | c :: t =>
      if c = 92 then
        match t with
        | [] => none
        | e :: t2 =>
          if e = 34 ∨ e = 92 ∨ e = 47 ∨ e = 39 then (unquoteLoop fuel t2).map (fun r => e :: r)
          else if e = 98 then (unquoteLoop fuel t2).map (fun r => 8 :: r)
          else if e = 102 then (unquoteLoop fuel t2).map (fun r => 12 :: r)
          else if e = 110 then (unquoteLoop fuel t2).map (fun r => 10 :: r)
          else if e = 114 then (unquoteLoop fuel t2).map (fun r => 13 :: r)
          else if e = 116 then (unquoteLoop fuel t2).map (fun r => 9 :: r)
          else if e = 117 then
            let rr := getu4 s
            if rr < 0 then none
            else
              let r6 := s.drop 6
              if 55296 ≤ rr ∧ rr < 57344 then
                let rr1 := getu4 r6
                if rr < 56320 ∧ 56320 ≤ rr1 ∧ rr1 < 57344 then
                  (unquoteLoop fuel (r6.drop 6)).map
                    (fun r => EncodeRune (((rr.toNat - 55296) * 1024 + (rr1.toNat - 56320)) + 65536) ++ r)
                else (unquoteLoop fuel r6).map (fun r => EncodeRune RuneError ++ r)
              else (unquoteLoop fuel r6).map (fun r => EncodeRune rr.toNat ++ r)
          else none
      else if c = 34 ∨ c < 32 then none
      else if c < 128 then (unquoteLoop fuel t).map (fun r => c :: r)
      else
        let d := DecodeRune s
        (unquoteLoop fuel (s.drop d.2)).map (fun r => EncodeRune d.1 ++ r)

/-- Go `unquoteBytes` (without the quotes). -/
def unquoteBytes (s : GoString) : Option GoString := unquoteLoop s.length s

/-- The Go scanner on the integer part of a number literal (`stateNeg`, `state0`, `state1`): an
optional minus sign, then `0` or a digit from 1 to 9 followed by digits. -/
def scanInt (s : GoString) : Option (GoString × GoString) :=
  let sign : GoString := if s.head? = some 45 then [45] else []
  let s1 := if s.head? = some 45 then s.tail else s
  match s1 with
  | [] => none
  | c :: t =>
    if c = 48 then some (sign ++ [48], t)
    else if 49 ≤ c ∧ c ≤ 57 then some (sign ++ c :: (t.span isDigit).1, (t.span isDigit).2)
    else none

/-- The Go scanner on the optional fraction of a number literal (`stateDot`, `stateDot0`): a
dot must be followed by a digit. -/
def scanFrac (s : GoString) : Option (GoString × GoString) :=
  match s with
  | [] => some ([], [])
  | c :: t =>
    if c = 46 then
      if (t.span isDigit).1 = [] then none
      else some (46 :: (t.span isDigit).1, (t.span isDigit).2)
    else some ([], c :: t)

/-- The Go scanner on the optional exponent of a number literal (`stateE`, `stateESign`,
`stateE0`): `e` or `E`, an optional sign, and at least one digit. -/
def scanExp (s : GoString) : Option (GoString × GoString) :=
  match s with
  | [] => some ([], [])
  | e :: t =>
    if e = 101 ∨ e = 69 then
      let sign : GoString :=
        if t.head? = some 43 then [43] else if t.head? = some 45 then [45] else []
      let t1 := if t.head? = some 43 ∨ t.head? = some 45 then t.tail else t
      if (t1.span isDigit).1 = [] then none
      else some (e :: sign ++ (t1.span isDigit).1, (t1.span isDigit).2)
    else some ([], e :: t)

/-- The Go scanner on a number literal: the literal and the input after it. -/
def scanNumber (s : GoString) : Option (GoString × GoString) :=
  match scanInt s with
  | none => none
  | some (ip, r1) =>
    match scanFrac r1 with
    | none => none
    | some (fp, r2) =>
      match scanExp r2 with
      | none => none
      | some (ep, r3) => some (ip ++ fp ++ ep, r3)

/-- A JSON value as the decoder meets it: a number keeps its literal, an object keeps its members
in the order of the input, repeated keys included. -/
inductive JValue where
  | null
  | bool (b : Bool)
  | num (lit : GoString)
  | str (s : GoString)
  | arr (elems : List JValue)
  | obj (members : List (GoString × JValue))

/-- Go `maxNestingDepth` of the scanner. -/
def maxNestingDepth : Nat := 10000

/-- A string literal, after the opening quote: scanned, then unquoted. The decoder unquotes a
literal only after the scanner has accepted it, and then `unquoteBytes` cannot fail
(`parseString_isSome_iff`). -/
def parseString (s : GoString) : Option (GoString × GoString) :=
  match scanStr StrState.inString s with
  | none => none
  | some (raw, rest) =>
    match unquoteBytes raw with
    | none => none
    | some v => some (v, rest)

mutual
/-- One JSON value at the start of the input (no leading white space), and the input after it.
The first argument bounds the depth of the recursion, the second is the nesting depth so far. -/
def parseValue : Nat → Nat → GoString → Option (JValue × GoString)
  | 0, _, _ => none
  | fuel + 1, depth, s =>
    match s with
    | [] => none
    | c :: t =>
      if c = 123 then
        if depth + 1 > maxNestingDepth then none
        else
          match skipSpace t with
          | [] => none
          | c2 :: t2 =>
            if c2 = 125 then some (JValue.obj [], t2)
            else (parseMembers fuel (depth + 1) (c2 :: t2)).map (fun r => (JValue.obj r.1, r.2))
      else if c = 91 then
        if depth + 1 > maxNestingDepth then none
        else
          match skipSpace t with
          | [] => none
          | c2 :: t2 =>
            if c2 = 93 then some (JValue.arr [], t2)
            else (parseElements fuel (depth + 1) (c2 :: t2)).map (fun r => (JValue.arr r.1, r.2))
      else if c = 34 then (parseString t).map (fun r => (JValue.str r.1, r.2))
      else if c = 116 then
        if HasPrefix t [114, 117, 101] then some (JValue.bool true, t.drop 3) else none
      else if c = 102 then
        if HasPrefix t [97, 108, 115, 101] then some (JValue.bool false, t.drop 4) else none
      else if c = 110 then
        if HasPrefix t [117, 108, 108] then some (JValue.null, t.drop 3) else none
      else (scanNumber s).map (fun r => (JValue.num r.1, r.2))
/-- The members of an object, from the first byte of a key to the closing brace. -/
def parseMembers : Nat → Nat → GoString → Option (List (GoString × JValue) × GoString)
  | 0, _, _ => none
  | fuel + 1, depth, s =>
    match s with
    | [] => none
    | c :: t =>
      if c = 34 then
        match parseString t with
        | none => none
        | some (key, r1) =>
          match skipSpace r1 with
          | [] => none
          | c1 :: t1 =>
            if c1 = 58 then
              match parseValue fuel depth (skipSpace t1) with
              | none => none
              | some (v, r2) =>
                match skipSpace r2 with
                | [] => none
                | c2 :: t2 =>
                  if c2 = 44 then
                    (parseMembers fuel depth (skipSpace t2)).map (fun r => ((key, v) :: r.1, r.2))
                  else if c2 = 125 then some ([(key, v)], t2)
                  else none
            else none
      else none
/-- The elements of an array, from the first byte of an element to the closing bracket. -/
def parseElements : Nat → Nat → GoString → Option (List JValue × GoString)
  | 0, _, _ => none
  | fuel + 1, depth, s =>
    match parseValue fuel depth s with
    | none => none
    | some (v, r) =>
      match skipSpace r with
      | [] => none
      | c :: t =>
        if c = 44 then (parseElements fuel depth (skipSpace t)).map (fun r2 => (v :: r2.1, r2.2))
        else if c = 93 then some ([v], t)
        else none
end

/-- The whole input as one JSON value between optional white space, or `none` where the Go
scanner reports a syntax error (`checkValid`). Of any two nested calls of the three functions
above at least one has consumed a byte, so twice the length of the input bounds the recursion. -/
def parseJSON (data : GoString) : Option JValue :=
  match parseValue (2 * data.length + 2) 0 (skipSpace data) with
  | none => none
  | some (v, rest) => if skipSpace rest = [] then some v else none

/-! ## `encoding/json`: decoding into the structs of `main.go` -/

/-- The errors of `json.Unmarshal`: a `SyntaxError` of the scanner, or the first
`UnmarshalTypeError` met while decoding (with the kind of the JSON value that did not fit). -/
inductive JSONError where
  | syntaxError
  | unmarshalType (value : String)
deriving DecidableEq, Repr

/-- Go `(*decodeState).saveError`: only the first error is kept; decoding goes on. -/
def saveError (saved : Option JSONError) (e : JSONError) : Option JSONError :=
  match saved with
  | none => some e
  | some s => some s

/-- Go `strconv.ParseInt(lit, 10, 64)` on a number literal: `none` is an error (a fraction, an
exponent, or a value out of the range of `int64`). -/
def ParseInt (lit : GoString) : Option Int :=
  let neg := decide (lit.head? = some 45)
  let ds := if lit.head? = some 45 ∨ lit.head? = some 43 then lit.tail else lit
  if ds = [] ∨ ¬ ds.all isDigit then none
  else
    let n : Nat := ds.foldl (fun a c => a * 10 + (c - 48)) 0
    if neg then (if n ≤ 9223372036854775808 then some (-(n : Int)) else none)
    else (if n < 9223372036854775808 then some (n : Int) else none)

/-- Decoding a JSON value into an integer field of `bits` bits (`literalStore`, `array`, `object`):
a number literal that parses and fits is stored, `null` leaves the field alone, everything else
saves an `UnmarshalTypeError` and leaves the field alone. -/
def storeInt (bits : Nat) (v : JValue) (cur : Int) (saved : Option JSONError) :
    Int × Option JSONError :=
  match v with
  | JValue.null => (cur, saved)
  | JValue.num lit =>
    match ParseInt lit with
    | some n =>
      if -(2 : Int) ^ (bits - 1) ≤ n ∧ n < (2 : Int) ^ (bits - 1) then (n, saved)
      else (cur, saveError saved (JSONError.unmarshalType "number"))
    | none => (cur, saveError saved (JSONError.unmarshalType "number"))
  | JValue.bool _ => (cur, saveError saved (JSONError.unmarshalType "bool"))
  | JValue.str _ => (cur, saveError saved (JSONError.unmarshalType "string"))
  | JValue.arr _ => (cur, saveError saved (JSONError.unmarshalType "array"))
  | JValue.obj _ => (cur, saveError saved (JSONError.unmarshalType "object"))

/-- Decoding a JSON value into a `string` field. -/
def storeString (v : JValue) (cur : GoString) (saved : Option JSONError) :
    GoString × Option JSONError :=
  match v with
  | JValue.null => (cur, saved)
  | JValue.str s => (s, saved)
  | JValue.num _ => (cur, saveError saved (JSONError.unmarshalType "number"))
  | JValue.bool _ => (cur, saveError saved (JSONError.unmarshalType "bool"))
  | JValue.arr _ => (cur, saveError saved (JSONError.unmarshalType "array"))
  | JValue.obj _ => (cur, saveError saved (JSONError.unmarshalType "object"))

/-- Decoding a JSON value into a `bool` field. -/
def storeBool (v : JValue) (cur : Bool) (saved : Option JSONError) : Bool × Option JSONError :=
  match v with
  | JValue.null => (cur, saved)
  | JValue.bool b => (b, saved)
  | JValue.num _ => (cur, saveError saved (JSONError.unmarshalType "number"))
  | JValue.str _ => (cur, saveError saved (JSONError.unmarshalType "string"))
  | JValue.arr _ => (cur, saveError saved (JSONError.unmarshalType "array"))
  | JValue.obj _ => (cur, saveError saved (JSONError.unmarshalType "object"))

/-- A Go `map[string]V` with its entries in some order: `m[k] = v`. -/
def mapSet {V : Type} (m : List (GoString × V)) (k : GoString) (v : V) : List (GoString × V) :=
  match m with
  | [] => [(k, v)]
  | e :: rest => if e.1 = k then (k, v) :: rest else e :: mapSet rest k v

/-- Decoding a JSON value into a `map[string]string` field (`none` is the nil map): `null` sets
the nil map; an object allocates the map if it is nil and sets, for every member in turn, the key
to the member decoded into a fresh empty string. -/
def storeMap (v : JValue) (cur : Option (List (GoString × GoString)))
    (saved : Option JSONError) : Option (List (GoString × GoString)) × Option JSONError :=
  match v with
  | JValue.null => (none, saved)
  | JValue.obj members =>
    let r := members.foldl
      (fun (acc : List (GoString × GoString) × Option JSONError) m =>
        let e := storeString m.2 [] acc.2
        (mapSet acc.1 m.1 e.1, e.2))
      (cur.getD [], saved)
    (some r.1, r.2)
  | JValue.num _ => (cur, saveError saved (JSONError.unmarshalType "number"))
  | JValue.str _ => (cur, saveError saved (JSONError.unmarshalType "string"))
  | JValue.bool _ => (cur, saveError saved (JSONError.unmarshalType "bool"))
  | JValue.arr _ => (cur, saveError saved (JSONError.unmarshalType "array"))

/-- The case folding under which the decoder matches an object key with a field name. On an
ASCII name this is the matching of every Go version: a letter matches in either case, the Kelvin
sign (U+212A) matches `k` and the long s (U+017F) matches `s`, any other byte matches itself. -/
def foldName : GoString → GoString
  | [] => []
  | 226 :: 132 :: 170 :: s => 75 :: foldName s
  | 197 :: 191 :: s => 83 :: foldName s
  | c :: s => (if 97 ≤ c ∧ c ≤ 122 then c - 32 else c) :: foldName s

/-- Whether the object key `key` selects the field named `name`. -/
def fieldMatch (name key : GoString) : Bool := foldName key == foldName name

/-- Walks a JSON value into a struct: an object sets the fields its members select, in the order
of the input; `null` changes nothing; every other value is an `UnmarshalTypeError`. -/
def decodeStruct {α : Type} (setField : α × Option JSONError → GoString → JValue → α × Option JSONError)
    (v : JValue) (cur : α) : α × Option JSONError :=
  match v with
  | JValue.obj members => members.foldl (fun acc m => setField acc m.1 m.2) (cur, none)
  | JValue.null => (cur, none)
  | JValue.num _ => (cur, some (JSONError.unmarshalType "number"))
  | JValue.str _ => (cur, some (JSONError.unmarshalType "string"))
  | JValue.bool _ => (cur, some (JSONError.unmarshalType "bool"))
  | JValue.arr _ => (cur, some (JSONError.unmarshalType "array"))

/-- Go `json.Unmarshal(data, &x)` for a struct: a syntax error leaves `x` untouched; otherwise
the value is decoded into `x` and the first saved error, if any, is returned with it. -/
def Unmarshal {α : Type} (setField : α × Option JSONError → GoString → JValue → α × Option JSONError)
    (data : GoString) (cur : α) : α × Option JSONError :=
  match parseJSON data with
  | none => (cur, some JSONError.syntaxError)
  | some v => decodeStruct setField v cur

/-! ## The types of `main.go` -/

/-- The `config` struct of the source. `Parameters` is `none` for the nil map. -/
structure config where
  URL : GoString
  Method : GoString
  TLSSkipVerify : Bool
  RefreshAnticipationInMillisecond : Int
  Parameters : Option (List (GoString × GoString))
deriving DecidableEq, Repr

/-- The zero value `var cfg config`. -/
def config.zero : config := ⟨[], [], false, 0, none⟩

/-- The `JWT` struct of the source: `ExpireAt int64` under the JSON name `exp`. -/
structure JWT where
  ExpireAt : Int
deriving DecidableEq, Repr

/-- The `OryResp` struct of the source, under the JSON names `access_token`, `error` and
`error_description`. -/
structure OryResp where
  AccessToken : GoString
  Error : GoString
  ErrorDescription : GoString
deriving DecidableEq, Repr

/-- One object member decoded into a `config`. -/
def config.setField (acc : config × Option JSONError) (key : GoString) (v : JValue) :
    config × Option JSONError :=
  if fieldMatch (ascii "URL") key then
    let r := storeString v acc.1.URL acc.2
    ({ acc.1 with URL := r.1 }, r.2)
  else if fieldMatch (ascii "Method") key then
    let r := storeString v acc.1.Method acc.2
    ({ acc.1 with Method := r.1 }, r.2)
  else if fieldMatch (ascii "TLSSkipVerify") key then
    let r := storeBool v acc.1.TLSSkipVerify acc.2
    ({ acc.1 with TLSSkipVerify := r.1 }, r.2)
  else if fieldMatch (ascii "RefreshAnticipationInMillisecond") key then
    let r := storeInt 32 v acc.1.RefreshAnticipationInMillisecond acc.2
    ({ acc.1 with RefreshAnticipationInMillisecond := r.1 }, r.2)
  else if fieldMatch (ascii "Parameters") key then
    let r := storeMap v acc.1.Parameters acc.2
    ({ acc.1 with Parameters := r.1 }, r.2)
  else acc

/-- One object member decoded into a `JWT`. -/
def JWT.setField (acc : JWT × Option JSONError) (key : GoString) (v : JValue) :
    JWT × Option JSONError :=
  if fieldMatch (ascii "exp") key then
    let r := storeInt 64 v acc.1.ExpireAt acc.2
    ({ ExpireAt := r.1 }, r.2)
  else acc

/-- One object member decoded into an `OryResp`. -/
def OryResp.setField (acc : OryResp × Option JSONError) (key : GoString) (v : JValue) :
    OryResp × Option JSONError :=
  if fieldMatch (ascii "access_token") key then
    let r := storeString v acc.1.AccessToken acc.2
    ({ acc.1 with AccessToken := r.1 }, r.2)
  else if fieldMatch (ascii "error") key then
    let r := storeString v acc.1.Error acc.2
    ({ acc.1 with Error := r.1 }, r.2)
  else if fieldMatch (ascii "error_description") key then
    let r := storeString v acc.1.ErrorDescription acc.2
    ({ acc.1 with ErrorDescription := r.1 }, r.2)
  else acc

/-! ## The plugin -/

/-- The gRPC status codes used by the source. -/
inductive Code where
  | InvalidArgument
deriving DecidableEq, Repr

/-- Go `error` values returned by the plugin. -/
inductive Err where
  /-- The value of `fmt.Errorf`, with its message. -/
  | errorf (msg : GoString)
  /-- The value of `status.Error(code, msg)`. -/
  | status (code : Code) (msg : GoString)
  /-- The value of `status.Error(code, fmt.Sprintf("invalid config: %s, err: %s", raw, err))`,
  with the two arguments of the format kept apart. -/
  | invalidConfig (code : Code) (raw : GoString) (err : JSONError)
  /-- An error of `json.Unmarshal`. -/
  | json (err : JSONError)
  /-- An error of `net/http`, identified by the environment. -/
  | http (id : Nat)
deriving DecidableEq, Repr

/-- Go `err.Error()` for the errors of `fmt.Errorf`. -/
def Err.message : Err → GoString
  | Err.errorf msg => msg
  | Err.status _ msg => msg
  | _ => []

/-- Run-time panics of the Go code. -/
inductive Panic where
  /-- `index out of range [1] with length 1`. -/
  | indexOutOfRange (index length : Nat)
  /-- `invalid memory address or nil pointer dereference`. -/
  | nilPointerDereference
deriving DecidableEq, Repr

/-- Go `(c *config) validate()`. -/
def config.validate (c : config) : Option Err :=
  if c.URL = [] then some (Err.errorf (ascii "url must be provided"))
  else if c.Method = [] then some (Err.errorf (ascii "method must be provided"))
  else none

/-- The handler `QlightTokenManagerPluginImpl`: its state is the pointer `cfg`, nil before a
successful `Init`. -/
structure QlightTokenManagerPluginImpl where
  cfg : Option config
deriving DecidableEq, Repr

/-- The request of `Init`. -/
structure PluginInitialization_Request where
  RawConfiguration : GoString
deriving DecidableEq, Repr

/-- Go `Init`: the handler after the call, and the error returned (`none` for the empty
response and a nil error). -/
def Init (h : QlightTokenManagerPluginImpl) (req : PluginInitialization_Request) :
    QlightTokenManagerPluginImpl × Option Err :=
  let r := Unmarshal config.setField req.RawConfiguration config.zero
  match r.2 with
  | some err => (h, some (Err.invalidConfig Code.InvalidArgument req.RawConfiguration err))
  | none =>
    match r.1.validate with
    | some err => (h, some (Err.status Code.InvalidArgument err.message))
    | none => ({ h with cfg := some r.1 }, none)

/-- What a call of a handler method does: it panics, or it returns a response and an error. -/
inductive Outcome (α : Type) where
  | panic (p : Panic)
  | ret (resp : Option α) (err : Option Err)
deriving DecidableEq, Repr

/-- The response of `PluginQLightTokenManager`. -/
structure PluginQLightTokenManager_Response where
  RefreshAnticipationInMillisecond : Int
deriving DecidableEq, Repr

/-- Go `PluginQLightTokenManager`: the anticipation window reported to the host, at least 0. -/
def PluginQLightTokenManager (h : QlightTokenManagerPluginImpl) :
    Outcome PluginQLightTokenManager_Response :=
  match h.cfg with
  | none => Outcome.panic Panic.nilPointerDereference
  | some cfg =>
    let anticipation := if cfg.RefreshAnticipationInMillisecond > 0
      then cfg.RefreshAnticipationInMillisecond else 0
    Outcome.ret (some ⟨anticipation⟩) none

/-- The request of `TokenRefresh`. -/
structure TokenRefresh_Request where
  CurrentToken : GoString
  Psi : GoString
deriving DecidableEq, Repr

/-- The response of `TokenRefresh`. -/
structure TokenRefresh_Response where
  Token : GoString
deriving DecidableEq, Repr

/-- The key/value pairs handed to the encoder that the method selects. -/
inductive Payload where
  /-- A multipart form: one `CreateFormField(key)` with its value per entry, in the order of
  creation. -/
  | multipart (fields : List (GoString × GoString))
  /-- The `url.Values` appended to the URL as `"?" + encoded.Encode()`. -/
  | query (values : List (GoString × List GoString))
  /-- The `map[string]string` written as one JSON object by `json.NewEncoder(body).Encode(m)`. -/
  | jsonBody (m : List (GoString × GoString))
deriving DecidableEq, Repr

/-- The key/value pairs of a payload. -/
def Payload.pairs : Payload → List (GoString × GoString)
  | Payload.multipart fields => fields
  | Payload.query values => values.flatMap (fun kv => kv.2.map (fun v => (kv.1, v)))
  | Payload.jsonBody m => m

/-- The outbound HTTP request: method, configured URL, payload, whether the `Content-Type` of
the multipart writer is set, and the TLS setting of the client that sends it. -/
structure HTTPRequest where
  Method : GoString
  URL : GoString
  payload : Payload
  formDataContentType : Bool
  InsecureSkipVerify : Bool
deriving DecidableEq, Repr

/-- The environment of one call of `TokenRefresh`. -/
structure Env where
  /-- The reading of `time.Now()` inside `time.Since`. -/
  now : Time
  /-- The order in which `range` visits the entries of the parameters map. -/
  rangeOrder : List (GoString × GoString) → List (GoString × GoString)
  /-- Every entry is visited once. -/
  rangeOrder_perm : ∀ m, (rangeOrder m).Perm m
  /-- The error of `http.NewRequestWithContext`, if it returns one. -/
  newRequest : GoString → GoString → Payload → Option Err
  /-- The result of `client.Do` followed by `ioutil.ReadAll`: the body of the response, or the
  error of either call. -/
  exchange : HTTPRequest → Except Err GoString

/-- The placeholder marker of the parameter templates. -/
def marker : GoString := ascii "$\x7bPSI\x7d"

/-- The fixed scheme label and the space after it. -/
def bearer : GoString := ascii "bearer "

/-- Lines 125 to 129 of `TokenRefresh`: the scheme label, if any, is cut off after the first
space (`idx := strings.Index(token, " "); if idx >= 0 { token = token[idx+1:] }`). -/
def stripScheme (currentToken : GoString) : GoString :=
  let idx := Index currentToken [32]
  if idx ≥ 0 then currentToken.drop (idx + 1).toNat else currentToken

/-- Line 131 of `TokenRefresh`: the token without its scheme label, split at the dots. -/
def tokenSegments (currentToken : GoString) : List GoString :=
  Split (stripScheme currentToken) [46]

/-- Lines 134 to 138 of `TokenRefresh`: the `JWT` read from the second segment of the token.
Both the error of the base64 decoder and the error of the JSON decoder are dropped. -/
def claimsOf (segment : GoString) : JWT :=
  (Unmarshal JWT.setField (DecodeString segment).1 (⟨0⟩ : JWT)).1

/-- The test of line 143:
`time.Since(expireAt) < -time.Duration(RefreshAnticipationInMillisecond)*time.Millisecond`
with `expireAt := time.Unix(jwt.ExpireAt, 0)`. -/
def stillFresh (now : Time) (jwt : JWT) (anticipation : Int) : Bool :=
  decide (Since now (Unix jwt.ExpireAt 0) < wrap64 (wrap64 (-anticipation) * Millisecond))

/-- Lines 155 to 191 of `TokenRefresh`: the payload of the request. Every template is resolved
with `strings.Replace(template, marker, req.Psi, -1)`. -/
def buildPayload (cfg : config) (env : Env) (psi : GoString) : Payload :=
  let params := env.rangeOrder (cfg.Parameters.getD [])
  if cfg.Method = ascii "POST" ∨ cfg.Method = ascii "PUT" then
    Payload.multipart
      (params.foldl (fun fields kt => fields ++ [(kt.1, Replace kt.2 marker psi (-1))]) [])
  else if cfg.Method = ascii "GET" then
    Payload.query
      (params.foldl (fun values kt => mapSet values kt.1 [Replace kt.2 marker psi (-1)]) [])
  else
    Payload.jsonBody
      (params.foldl (fun m kt => mapSet m kt.1 (Replace kt.2 marker psi (-1))) [])

/-- Lines 148 to 208 of `TokenRefresh`: the request handed to `client.Do`. -/
def buildRequest (cfg : config) (env : Env) (psi : GoString) : HTTPRequest :=
  { Method := cfg.Method, URL := cfg.URL, payload := buildPayload cfg env psi,
    formDataContentType := decide (cfg.Method = ascii "POST" ∨ cfg.Method = ascii "PUT"),
    InsecureSkipVerify := cfg.TLSSkipVerify }

/-- Lines 222 to 231 of `TokenRefresh`: the body of the provider's response is decoded into an
`OryResp`; a decoding error is returned, a non-empty `error` field is returned as an error, and
otherwise the access token is returned behind the scheme label. -/
def tokenFromResponse (data : GoString) : Outcome TokenRefresh_Response :=
  let r := Unmarshal OryResp.setField data (⟨[], [], []⟩ : OryResp)
  match r.2 with
  | some err => Outcome.ret none (some (Err.json err))
  | none =>
    if r.1.Error.length > 0 then
      Outcome.ret none (some (Err.errorf (r.1.Error ++ ascii ": " ++ r.1.ErrorDescription)))
    else Outcome.ret (some ⟨bearer ++ r.1.AccessToken⟩) none

/-- Lines 148 to 231 of `TokenRefresh`: the fetch of a new token, with the requests sent.
For the method GET no body is built, so `reader` is still the nil `*bytes.Reader` of line 193
when it is passed to `http.NewRequestWithContext` as an `io.Reader`: that value is not the nil
interface, and once the method and the URL are accepted `NewRequestWithContext` calls `Len` on
it, which dereferences the nil pointer. -/
def fetch (cfg : config) (env : Env) (req : TokenRefresh_Request) :
    Outcome TokenRefresh_Response × List HTTPRequest :=
  match env.newRequest cfg.Method cfg.URL (buildPayload cfg env req.Psi) with
  | some err => (Outcome.ret none (some err), [])
  | none =>
    if cfg.Method = ascii "GET" then (Outcome.panic Panic.nilPointerDereference, [])
    else
      match env.exchange (buildRequest cfg env req.Psi) with
      | Except.error err => (Outcome.ret none (some err), [buildRequest cfg env req.Psi])
      | Except.ok data => (tokenFromResponse data, [buildRequest cfg env req.Psi])

/-- Go `TokenRefresh`: what the call does, and the HTTP requests it sent. -/
def TokenRefresh (h : QlightTokenManagerPluginImpl) (env : Env) (req : TokenRefresh_Request) :
    Outcome TokenRefresh_Response × List HTTPRequest :=
  let split := tokenSegments req.CurrentToken
  match split.get? 1 with
  | none => (Outcome.panic (Panic.indexOutOfRange 1 split.length), [])
  | some segment =>
    let jwt := claimsOf segment
    match h.cfg with
    | none => (Outcome.panic Panic.nilPointerDereference, [])
    | some cfg =>
      if stillFresh env.now jwt cfg.RefreshAnticipationInMillisecond then
        (Outcome.ret (some ⟨req.CurrentToken⟩) none, [])
      else fetch cfg env req

/-! ## Definitions used to state the properties -/

/-- The nanoseconds from the Unix epoch to `t`, as a mathematical integer. -/
def Time.unixNano (t : Time) : Int := (t.sec - unixToInternal) * 1000000000 + t.nsec

/-- The difference `t - u` in nanoseconds, as a mathematical integer. -/
def Time.diff (t u : Time) : Int := (t.sec - u.sec) * 1000000000 + (t.nsec - u.nsec)

/-- The invariant of a Go `Time`: the seconds are an `int64`, the nanoseconds are below one
second. -/
def Time.wf (t : Time) : Prop :=
  -9223372036854775808 ≤ t.sec ∧ t.sec ≤ 9223372036854775807 ∧ 0 ≤ t.nsec ∧ t.nsec < 1000000000

/-- The resolution of a template in the words of the specification: the template is read once
from left to right; where the marker starts, the PSI value is written and the marker is skipped
(`skip` counts the bytes of the marker still to skip); every other byte is copied. The inserted
text is never read again. -/
def substitute (mark psi : GoString) : Nat → GoString → GoString
  | _, [] => []
  | skip + 1, _ :: s => substitute mark psi skip s
  | 0, c :: s =>
    if HasPrefix (c :: s) mark then psi ++ substitute mark psi (mark.length - 1) s
    else c :: substitute mark psi 0 s

/-- An environment for the examples: the clock reads `now`, `range` visits the entries in the
order of the list, the request can be built, and the provider answers with `body`. -/
def Env.sample (now : Time) (body : GoString) : Env :=
  { now := now
    rangeOrder := fun m => m
    rangeOrder_perm := fun m => List.Perm.refl m
    newRequest := fun _ _ _ => none
    exchange := fun _ => Except.ok body }

/-! ## `encoding/json`: encoding a `config` -/

/-- The five keys under which a JSON object gives the fields of a `config`. -/
structure Keys where
  url : GoString
  method : GoString
  tlsSkipVerify : GoString
  refreshAnticipation : GoString
  parameters : GoString
deriving DecidableEq, Repr

/-- The keys that `json.Marshal` writes for a `config`: the names of the fields. -/
def Keys.fields : Keys :=
  ⟨ascii "URL", ascii "Method", ascii "TLSSkipVerify", ascii "RefreshAnticipationInMillisecond",
    ascii "Parameters"⟩

/-- A valid rune of two to four bytes at the start of a string: `RuneAt s r n` says that `s`
starts with the `n` bytes of the UTF-8 encoding of `r`, in the ranges that `utf8.DecodeRune`
accepts. -/
inductive RuneAt : GoString → Nat → Nat → Prop
  | two (p0 b1 : Nat) (rest : GoString) (h0 : 194 ≤ p0 ∧ p0 < 224) (h1 : 128 ≤ b1 ∧ b1 ≤ 191) :
      RuneAt (p0 :: b1 :: rest) ((p0 % 32) * 64 + b1 % 64) 2
  | three (p0 b1 b2 : Nat) (rest : GoString) (h0 : 224 ≤ p0 ∧ p0 < 240)
      (h1 : (if p0 = 224 then 160 else 128) ≤ b1 ∧ b1 ≤ (if p0 = 237 then 159 else 191))
      (h2 : 128 ≤ b2 ∧ b2 ≤ 191) :
      RuneAt (p0 :: b1 :: b2 :: rest) ((p0 % 16) * 4096 + (b1 % 64) * 64 + b2 % 64) 3
  | four (p0 b1 b2 b3 : Nat) (rest : GoString) (h0 : 240 ≤ p0 ∧ p0 < 245)
      (h1 : (if p0 = 240 then 144 else 128) ≤ b1 ∧ b1 ≤ (if p0 = 244 then 143 else 191))
      (h2 : 128 ≤ b2 ∧ b2 ≤ 191) (h3 : 128 ≤ b3 ∧ b3 ≤ 191) :
      RuneAt (p0 :: b1 :: b2 :: b3 :: rest)
        ((p0 % 8) * 262144 + (b1 % 64) * 4096 + (b2 % 64) * 64 + b3 % 64) 4

/-! # Properties

## `time`: the subtraction and the freshness test -/

theorem quo_rem_facts (D : Int) :
    quo D 1000000000 * 1000000000 + rem D 1000000000 = D ∧
    -1000000000 < rem D 1000000000 ∧ rem D 1000000000 < 1000000000 ∧
    (0 ≤ D → 0 ≤ rem D 1000000000) ∧ (D ≤ 0 → rem D 1000000000 ≤ 0) := by
  refine ⟨by simp only [rem]; ring, ?_, ?_, ?_, ?_⟩ <;>
    (simp only [rem, quo]; split_ifs <;> omega)

/-- Within the range of a `Duration`, `Sub` is the mathematical difference. -/
theorem Sub_inrange (t u : Time) (ht : t.wf) (hu : u.wf)
    (h1 : minDuration ≤ t.diff u) (h2 : t.diff u ≤ maxDuration) : t.Sub u = t.diff u := by
  obtain ⟨ts, tn⟩ := t
  obtain ⟨us, un⟩ := u
  simp only [Time.wf, Time.diff, minDuration, maxDuration] at *
  have hd : wrap64 (wrap64 (wrap64 (ts - us) * Second) + (tn - un))
      = (ts - us) * 1000000000 + (tn - un) := by
    simp only [wrap64, Second]
    omega
  simp only [Time.Sub, hd]
  generalize hD : (ts - us) * 1000000000 + (tn - un) = D at *
  obtain ⟨hq, hr1, hr2, hs1, hs2⟩ := quo_rem_facts D
  have heq : (Time.Add ⟨us, un⟩ D).Equal ⟨ts, tn⟩ = true := by
    simp only [Time.Add, Time.addSec, Time.Equal, wrap64]
    generalize quo D 1000000000 = q at *
    generalize rem D 1000000000 = r at *
    split_ifs <;> simp only [Bool.and_eq_true, beq_iff_eq, decide_eq_decide] at * <;> omega
  simp [heq]

/-- Above the range of a `Duration`, `Sub` is `maxDuration`. -/
theorem Sub_above (t u : Time) (ht : t.wf) (hu : u.wf)
    (h2 : maxDuration < t.diff u) : t.Sub u = maxDuration := by
  obtain ⟨ts, tn⟩ := t
  obtain ⟨us, un⟩ := u
  simp only [Time.wf, Time.diff, minDuration, maxDuration] at *
  simp only [Time.Sub]
  generalize hd : wrap64 (wrap64 (wrap64 (ts - us) * Second) + (tn - un)) = d
  have hdr : -9223372036854775808 ≤ d ∧ d ≤ 9223372036854775807 := by
    subst hd; simp only [wrap64]; omega
  obtain ⟨hq, hr1, hr2, hs1, hs2⟩ := quo_rem_facts d
  have hne : (Time.Add ⟨us, un⟩ d).Equal ⟨ts, tn⟩ = false := by
    simp only [Time.Add, Time.addSec, Time.Equal, wrap64]
    generalize quo d 1000000000 = q at *
    generalize rem d 1000000000 = r at *
    split_ifs <;>
      simp only [Bool.and_eq_false_iff, beq_eq_false_iff_ne, ne_eq, decide_eq_decide] at * <;>
      omega
  have hb : Time.Before ⟨ts, tn⟩ ⟨us, un⟩ = false := by
    simp only [Time.Before, Bool.or_eq_false_iff, decide_eq_false_iff_not, Bool.and_eq_false_iff,
      beq_eq_false_iff_ne]
    omega
  simp [hne, hb, maxDuration]

/-- Below the range of a `Duration`, `Sub` is `minDuration`. -/
theorem Sub_below (t u : Time) (ht : t.wf) (hu : u.wf)
    (h2 : t.diff u < minDuration) : t.Sub u = minDuration := by
  obtain ⟨ts, tn⟩ := t
  obtain ⟨us, un⟩ := u
  simp only [Time.wf, Time.diff, minDuration, maxDuration] at *
  simp only [Time.Sub]
  generalize hd : wrap64 (wrap64 (wrap64 (ts - us) * Second) + (tn - un)) = d
  have hdr : -9223372036854775808 ≤ d ∧ d ≤ 9223372036854775807 := by
    subst hd; simp only [wrap64]; omega
  obtain ⟨hq, hr1, hr2, hs1, hs2⟩ := quo_rem_facts d
  have hne : (Time.Add ⟨us, un⟩ d).Equal ⟨ts, tn⟩ = false := by
    simp only [Time.Add, Time.addSec, Time.Equal, wrap64]
    generalize quo d 1000000000 = q at *
    generalize rem d 1000000000 = r at *
    split_ifs <;>
      simp only [Bool.and_eq_false_iff, beq_eq_false_iff_ne, ne_eq, decide_eq_decide] at * <;>
      omega
  have hb : Time.Before ⟨ts, tn⟩ ⟨us, un⟩ = true := by
    simp only [Time.Before, Bool.or_eq_true, decide_eq_true_eq, Bool.and_eq_true, beq_iff_eq]
    omega
  simp [hne, hb, minDuration]

/-- Against a threshold inside the range of a `Duration`, the saturation of `Sub` is invisible. -/
theorem Sub_lt_iff (t u : Time) (ht : t.wf) (hu : u.wf) (thr : Int)
    (h1 : minDuration < thr) (h2 : thr ≤ maxDuration) : t.Sub u < thr ↔ t.diff u < thr := by
  by_cases ha : maxDuration < t.diff u
  · rw [Sub_above t u ht hu ha]; omega
  · by_cases hb : t.diff u < minDuration
    · rw [Sub_below t u ht hu hb]; omega
    · rw [Sub_inrange t u ht hu (by omega) (by omega)]

/-- The freshness test of line 143 in mathematical terms, for every `int64` expiry and every
`int32` window: the token is fresh when the instant that `time.Unix` holds for the expiry lies
more than the window after the reading of the clock. -/
theorem stillFresh_iff (now : Time) (exp A : Int) (hnow : now.wf)
    (hA : -2147483648 ≤ A ∧ A ≤ 2147483647) :
    stillFresh now ⟨exp⟩ A = true ↔
      (wrap64 (exp + unixToInternal) - unixToInternal) * 1000000000 - now.unixNano
        > A * 1000000 := by
  have hthr : wrap64 (wrap64 (-A) * Millisecond) = -A * 1000000 := by
    simp only [wrap64, Millisecond]; omega
  have hu : (Unix exp 0).wf := by
    simp only [Unix, unixTime, Time.wf, wrap64]
    norm_num
    omega
  simp only [stillFresh, Since, decide_eq_true_eq, hthr]
  rw [Sub_lt_iff now (Unix exp 0) hnow hu _ (by simp only [minDuration]; omega)
    (by simp only [maxDuration]; omega)]
  simp only [Time.diff, Time.unixNano, Unix, unixTime]
  norm_num
  constructor <;> intro h <;> omega

/-! ## The freshness decision -/

/-- A fetch that returns a response has sent a request. -/
theorem fetch_ne_passthrough (cfg : config) (env : Env) (req : TokenRefresh_Request)
    (resp : TokenRefresh_Response) : fetch cfg env req ≠ (Outcome.ret (some resp) none, []) := by
  unfold fetch
  cases env.newRequest cfg.Method cfg.URL (buildPayload cfg env req.Psi) with
  | some err => simp
  | none =>
    by_cases hget : cfg.Method = ascii "GET"
    · simp [hget]
    · cases env.exchange (buildRequest cfg env req.Psi) with
      | error err => simp [hget]
      | ok data => simp [hget]

/-- With the method GET, a fetch whose method and URL are accepted panics before any request is
sent: the nil `*bytes.Reader` of line 193 reaches `http.NewRequestWithContext`. -/
theorem fetch_GET_panics (cfg : config) (env : Env) (req : TokenRefresh_Request)
    (hget : cfg.Method = ascii "GET")
    (hreq : env.newRequest cfg.Method cfg.URL (buildPayload cfg env req.Psi) = none) :
    fetch cfg env req = (Outcome.panic Panic.nilPointerDereference, []) := by
  unfold fetch
  rw [hreq]
  simp [hget]

/-- Claim C1, on the range of expiries that `time.Unix` holds without overflow: for every current
token whose second segment exists and decodes to the expiry `exp` with `exp + 62135596800` inside
`int64`, every window `A` with `0 ≤ A` (an `int32`) and every reading of the clock, `TokenRefresh`
returns the current token unchanged with no HTTP request sent if and only if
`exp` seconds after the epoch is more than `A` milliseconds after the reading of the clock; in
every other case it goes on with the fetch. -/
theorem C1_fresh_iff_within_time_range (cfg : config) (env : Env) (req : TokenRefresh_Request)
    (segment : GoString)
    (hseg : (tokenSegments req.CurrentToken).get? 1 = some segment)
    (hA : 0 ≤ cfg.RefreshAnticipationInMillisecond ∧
      cfg.RefreshAnticipationInMillisecond ≤ 2147483647)
    (hnow : env.now.wf)
    (hexp : -9223372036854775808 ≤ (claimsOf segment).ExpireAt ∧
      (claimsOf segment).ExpireAt + 62135596800 ≤ 9223372036854775807) :
    (TokenRefresh ⟨some cfg⟩ env req = (Outcome.ret (some ⟨req.CurrentToken⟩) none, []) ↔
      (claimsOf segment).ExpireAt * 1000000000 - env.now.unixNano
        > cfg.RefreshAnticipationInMillisecond * 1000000) ∧
    (¬ ((claimsOf segment).ExpireAt * 1000000000 - env.now.unixNano
        > cfg.RefreshAnticipationInMillisecond * 1000000) →
      TokenRefresh ⟨some cfg⟩ env req = fetch cfg env req) := by
  have hw : wrap64 ((claimsOf segment).ExpireAt + unixToInternal) - unixToInternal
      = (claimsOf segment).ExpireAt := by
    simp only [wrap64, unixToInternal]; omega
  have hiff := stillFresh_iff env.now (claimsOf segment).ExpireAt
    cfg.RefreshAnticipationInMillisecond hnow (by omega)
  rw [hw] at hiff
  have hjwt : (⟨(claimsOf segment).ExpireAt⟩ : JWT) = claimsOf segment := rfl
  rw [hjwt] at hiff
  simp only [TokenRefresh, hseg]
  by_cases hf : stillFresh env.now (claimsOf segment) cfg.RefreshAnticipationInMillisecond = true
  · have hc := hiff.mp hf
    simp [hf, hc]
  · have hc : ¬ ((claimsOf segment).ExpireAt * 1000000000 - env.now.unixNano
        > cfg.RefreshAnticipationInMillisecond * 1000000) := fun h => hf (hiff.mpr h)
    have hf2 : stillFresh env.now (claimsOf segment) cfg.RefreshAnticipationInMillisecond
        = false := by simpa using hf
    simp only [hf2, hc, iff_false, not_false_eq_true, forall_true_left, and_true,
      Bool.false_eq_true, if_false]
    exact fetch_ne_passthrough cfg env req _

set_option maxRecDepth 100000 in
/-- Claim C1 at a concrete input: a token that expires in 2286, read in 2023 with a window of
one second, is returned unchanged. -/
theorem C1_fresh_iff_within_time_range_witness :
    (TokenRefresh ⟨some ⟨ascii "u", ascii "POST", false, 1000, none⟩⟩
        (Env.sample (Unix 1700000000 0) [])
        ⟨ascii "bearer h.eyJleHAiOjk5OTk5OTk5OTl9.s", ascii "p"⟩
      = (Outcome.ret (some ⟨ascii "bearer h.eyJleHAiOjk5OTk5OTk5OTl9.s"⟩) none, []) ↔
      (claimsOf (ascii "eyJleHAiOjk5OTk5OTk5OTl9")).ExpireAt * 1000000000
        - (Unix 1700000000 0).unixNano > 1000 * 1000000) ∧
    (¬ ((claimsOf (ascii "eyJleHAiOjk5OTk5OTk5OTl9")).ExpireAt * 1000000000
        - (Unix 1700000000 0).unixNano > 1000 * 1000000) →
      TokenRefresh ⟨some ⟨ascii "u", ascii "POST", false, 1000, none⟩⟩
        (Env.sample (Unix 1700000000 0) [])
        ⟨ascii "bearer h.eyJleHAiOjk5OTk5OTk5OTl9.s", ascii "p"⟩
      = fetch ⟨ascii "u", ascii "POST", false, 1000, none⟩ (Env.sample (Unix 1700000000 0) [])
        ⟨ascii "bearer h.eyJleHAiOjk5OTk5OTk5OTl9.s", ascii "p"⟩) :=
  C1_fresh_iff_within_time_range ⟨ascii "u", ascii "POST", false, 1000, none⟩
    (Env.sample (Unix 1700000000 0) [])
    ⟨ascii "bearer h.eyJleHAiOjk5OTk5OTk5OTl9.s", ascii "p"⟩
    (ascii "eyJleHAiOjk5OTk5OTk5OTl9") (by decide) (by decide)
    (by unfold Time.wf; decide) (by decide)

set_option maxRecDepth 100000 in
/-- Claim C1 as stated fails at the top of `int64`: the second segment of the token decodes to
the expiry `9223372036854775807`, which is more than the window after the reading of the clock,
and yet `TokenRefresh` does not return the current token: `time.Unix` overflows. -/
theorem C1_counterexample_expiry_overflow :
    (tokenSegments (ascii "bearer h.eyJleHAiOjkyMjMzNzIwMzY4NTQ3NzU4MDd9.s")).get? 1
      = some (ascii "eyJleHAiOjkyMjMzNzIwMzY4NTQ3NzU4MDd9") ∧
    (claimsOf (ascii "eyJleHAiOjkyMjMzNzIwMzY4NTQ3NzU4MDd9")).ExpireAt = 9223372036854775807 ∧
    (claimsOf (ascii "eyJleHAiOjkyMjMzNzIwMzY4NTQ3NzU4MDd9")).ExpireAt * 1000000000
      - (Unix 1700000000 0).unixNano > 0 * 1000000 ∧
    TokenRefresh ⟨some ⟨ascii "u", ascii "POST", false, 0, none⟩⟩
        (Env.sample (Unix 1700000000 0) [])
        ⟨ascii "bearer h.eyJleHAiOjkyMjMzNzIwMzY4NTQ3NzU4MDd9.s", ascii "p"⟩
      ≠ (Outcome.ret (some ⟨ascii "bearer h.eyJleHAiOjkyMjMzNzIwMzY4NTQ3NzU4MDd9.s"⟩) none, []) := by
  decide

/-! ## Malformed tokens -/

/-- A string without a dot is split into one segment. -/
theorem Split_without_dot (s : GoString) (h : 46 ∉ s) : Split s [46] = [s] := by
  have hc : List.count 46 s = 0 := List.count_eq_zero.mpr h
  simp [Split, Count, hc, splitLoop]

/-- Claim C2 fails on the code: for every current token that has no dot after the scheme label is
cut off, `TokenRefresh` panics with an index out of range at `split[1]`, whatever the handler and
the environment; no claims are read and no request is sent. -/
theorem C2_token_without_dot_panics (h : QlightTokenManagerPluginImpl) (env : Env)
    (req : TokenRefresh_Request) (hdot : 46 ∉ stripScheme req.CurrentToken) :
    TokenRefresh h env req = (Outcome.panic (Panic.indexOutOfRange 1 1), []) := by
  simp [TokenRefresh, tokenSegments, Split_without_dot _ hdot]

/-- Claim C2 at a concrete input: the token `bearer abc` makes `TokenRefresh` panic. -/
theorem C2_token_without_dot_panics_witness :
    TokenRefresh ⟨some ⟨ascii "u", ascii "POST", false, 0, none⟩⟩
        (Env.sample (Unix 1700000000 0) []) ⟨ascii "bearer abc", ascii "p"⟩
      = (Outcome.panic (Panic.indexOutOfRange 1 1), []) :=
  C2_token_without_dot_panics ⟨some ⟨ascii "u", ascii "POST", false, 0, none⟩⟩
    (Env.sample (Unix 1700000000 0) []) ⟨ascii "bearer abc", ascii "p"⟩ (by decide)

/-! ## A negative anticipation window -/

set_option maxRecDepth 100000 in
/-- Claim C4 fails on the code: with the window `-1000`, a token that expired half a second
before the reading of the clock (expiry 100, clock 100.5 seconds after the epoch) is returned
unchanged with no request sent, while with the window `0` the same call goes on with the fetch;
`PluginQLightTokenManager` reports the window `0` for the same configuration. -/
theorem C4_negative_window_returns_expired_token :
    TokenRefresh ⟨some ⟨ascii "u", ascii "POST", false, -1000, none⟩⟩
        (Env.sample ⟨unixToInternal + 100, 500000000⟩ [])
        ⟨ascii "bearer h.eyJleHAiOjEwMH0.s", ascii "p"⟩
      = (Outcome.ret (some ⟨ascii "bearer h.eyJleHAiOjEwMH0.s"⟩) none, []) ∧
    (claimsOf (ascii "eyJleHAiOjEwMH0")).ExpireAt = 100 ∧
    TokenRefresh ⟨some ⟨ascii "u", ascii "POST", false, 0, none⟩⟩
        (Env.sample ⟨unixToInternal + 100, 500000000⟩ [])
        ⟨ascii "bearer h.eyJleHAiOjEwMH0.s", ascii "p"⟩
      = fetch ⟨ascii "u", ascii "POST", false, 0, none⟩
        (Env.sample ⟨unixToInternal + 100, 500000000⟩ [])
        ⟨ascii "bearer h.eyJleHAiOjEwMH0.s", ascii "p"⟩ ∧
    PluginQLightTokenManager ⟨some ⟨ascii "u", ascii "POST", false, -1000, none⟩⟩
      = Outcome.ret (some ⟨0⟩) none := by
  decide

/-! ## The provider's response -/

/-- Every request that `TokenRefresh` sends is the request of `buildRequest`. -/
theorem TokenRefresh_sent (cfg : config) (env : Env) (req : TokenRefresh_Request)
    (r : HTTPRequest) (hr : r ∈ (TokenRefresh ⟨some cfg⟩ env req).2) :
    r = buildRequest cfg env req.Psi := by
  cases hseg : (tokenSegments req.CurrentToken).get? 1 with
  | none =>
    simp only [TokenRefresh, hseg] at hr
    simp at hr
  | some segment =>
    simp only [TokenRefresh, hseg] at hr
    split_ifs at hr
    · simp at hr
    · unfold fetch at hr
      cases hq : env.newRequest cfg.Method cfg.URL (buildPayload cfg env req.Psi) with
      | some err => simp [hq] at hr
      | none =>
        simp only [hq] at hr
        split_ifs at hr
        · simp at hr
        · cases hx : env.exchange (buildRequest cfg env req.Psi) with
          | error err => simpa [hx] using hr
          | ok data => simpa [hx] using hr

/-- When `TokenRefresh` has sent a request and read the body `data` of the response, its outcome
is what the end of the function makes of `data`. -/
theorem TokenRefresh_of_response (cfg : config) (env : Env) (req : TokenRefresh_Request)
    (data : GoString)
    (hsent : (TokenRefresh ⟨some cfg⟩ env req).2 ≠ [])
    (hbody : env.exchange (buildRequest cfg env req.Psi) = Except.ok data) :
    (TokenRefresh ⟨some cfg⟩ env req).1 = tokenFromResponse data := by
  cases hseg : (tokenSegments req.CurrentToken).get? 1 with
  | none =>
    simp only [TokenRefresh, hseg] at hsent
    simp at hsent
  | some segment =>
    simp only [TokenRefresh, hseg] at hsent ⊢
    split_ifs at hsent ⊢
    · simp at hsent
    · unfold fetch at hsent ⊢
      cases hq : env.newRequest cfg.Method cfg.URL (buildPayload cfg env req.Psi) with
      | some err => simp [hq] at hsent
      | none =>
        simp only [hq] at hsent ⊢
        split_ifs at hsent ⊢
        · simp at hsent
        · simp [hbody]

/-- Claim C6: whenever `TokenRefresh` has sent its request and read a response body that decodes
without error to an `OryResp`: if the `error` field is non-empty, `TokenRefresh` returns no
response and the error whose message is the error code, then `": "`, then the description,
whatever the access token holds; and if the `error` field is empty, `TokenRefresh` returns no
error at all. -/
theorem C6_provider_error_is_returned (cfg : config) (env : Env) (req : TokenRefresh_Request)
    (data : GoString) (ory : OryResp)
    (hsent : (TokenRefresh ⟨some cfg⟩ env req).2 ≠ [])
    (hbody : env.exchange (buildRequest cfg env req.Psi) = Except.ok data)
    (hdec : Unmarshal OryResp.setField data (⟨[], [], []⟩ : OryResp) = (ory, none)) :
    (ory.Error ≠ [] →
      (TokenRefresh ⟨some cfg⟩ env req).1
        = Outcome.ret none (some (Err.errorf (ory.Error ++ ascii ": " ++ ory.ErrorDescription)))) ∧
    (ory.Error = [] → ∀ resp err, (TokenRefresh ⟨some cfg⟩ env req).1 ≠ Outcome.ret resp (some err)) := by
  rw [TokenRefresh_of_response cfg env req data hsent hbody]
  simp only [tokenFromResponse, hdec]
  constructor
  · intro hne
    have hlen : ory.Error.length > 0 := List.length_pos.mpr hne
    simp [hlen]
  · intro he resp err
    simp [he]

/-- Claim C7: whenever `TokenRefresh` has sent its request and read a response body that decodes
without error to an `OryResp` with an empty `error` field, `TokenRefresh` succeeds and the token
returned is `"bearer "` followed by the access token, whatever the current token, its scheme
label and the PSI are. -/
theorem C7_token_is_bearer_access_token (cfg : config) (env : Env) (req : TokenRefresh_Request)
    (data : GoString) (ory : OryResp)
    (hsent : (TokenRefresh ⟨some cfg⟩ env req).2 ≠ [])
    (hbody : env.exchange (buildRequest cfg env req.Psi) = Except.ok data)
    (hdec : Unmarshal OryResp.setField data (⟨[], [], []⟩ : OryResp) = (ory, none))
    (hok : ory.Error = []) :
    (TokenRefresh ⟨some cfg⟩ env req).1
      = Outcome.ret (some ⟨ascii "bearer " ++ ory.AccessToken⟩) none := by
  rw [TokenRefresh_of_response cfg env req data hsent hbody]
  simp [tokenFromResponse, hdec, hok, bearer]

set_option maxRecDepth 100000 in
/-- Claim C6 at a concrete input: the provider answers with an error and an access token; the
error is returned, the access token is not. -/
theorem C6_provider_error_is_returned_witness :
    (TokenRefresh ⟨some ⟨ascii "u", ascii "POST", false, 0, none⟩⟩
        (Env.sample (Unix 1700000000 0)
          (ascii "\x7b\"access_token\":\"tok\",\"error\":\"invalid_client\",\"error_description\":\"bad\"\x7d"))
        ⟨ascii "bearer h.eyJleHAiOjEwMH0.s", ascii "p"⟩).1
      = Outcome.ret none (some (Err.errorf (ascii "invalid_client: bad"))) :=
  (C6_provider_error_is_returned ⟨ascii "u", ascii "POST", false, 0, none⟩
    (Env.sample (Unix 1700000000 0)
      (ascii "\x7b\"access_token\":\"tok\",\"error\":\"invalid_client\",\"error_description\":\"bad\"\x7d"))
    ⟨ascii "bearer h.eyJleHAiOjEwMH0.s", ascii "p"⟩
    (ascii "\x7b\"access_token\":\"tok\",\"error\":\"invalid_client\",\"error_description\":\"bad\"\x7d")
    ⟨ascii "tok", ascii "invalid_client", ascii "bad"⟩
    (by decide) rfl (by decide)).1 (by decide)

set_option maxRecDepth 100000 in
/-- Claim C7 at a concrete input: the provider answers with the access token `tok`; the token
returned is `bearer tok`. -/
theorem C7_token_is_bearer_access_token_witness :
    (TokenRefresh ⟨some ⟨ascii "u", ascii "PATCH", false, 0, none⟩⟩
        (Env.sample (Unix 1700000000 0) (ascii "\x7b\"access_token\":\"tok\"\x7d"))
        ⟨ascii "Basic h.eyJleHAiOjEwMH0.s", ascii "p"⟩).1
      = Outcome.ret (some ⟨ascii "bearer tok"⟩) none :=
  C7_token_is_bearer_access_token ⟨ascii "u", ascii "PATCH", false, 0, none⟩
    (Env.sample (Unix 1700000000 0) (ascii "\x7b\"access_token\":\"tok\"\x7d"))
    ⟨ascii "Basic h.eyJleHAiOjEwMH0.s", ascii "p"⟩
    (ascii "\x7b\"access_token\":\"tok\"\x7d") ⟨ascii "tok", [], []⟩
    (by decide) rfl (by decide) rfl

/-! ## `Init` -/

/-- Claim C9: for every raw configuration that decodes without error to a config value, `Init`
succeeds and stores that config if both `url` and `method` are non-empty, whatever the parameters
mapping is (empty and nil included); and if `url` or `method` is empty it fails with an
`InvalidArgument` status and leaves the stored configuration of the handler as it was. -/
theorem C9_Init_validates (h : QlightTokenManagerPluginImpl) (raw : GoString) (cfg : config)
    (hdec : Unmarshal config.setField raw config.zero = (cfg, none)) :
    (cfg.URL ≠ [] ∧ cfg.Method ≠ [] → Init h ⟨raw⟩ = (⟨some cfg⟩, none)) ∧
    (cfg.URL = [] ∨ cfg.Method = [] →
      (Init h ⟨raw⟩).1 = h ∧ ∃ msg, (Init h ⟨raw⟩).2 = some (Err.status Code.InvalidArgument msg)) := by
  constructor
  · rintro ⟨hu, hm⟩
    simp [Init, hdec, config.validate, hu, hm]
  · intro hempty
    by_cases hu : cfg.URL = []
    · simp [Init, hdec, config.validate, hu]
    · have hm : cfg.Method = [] := hempty.resolve_left hu
      simp [Init, hdec, config.validate, hu, hm]

set_option maxRecDepth 100000 in
/-- Claim C9 at concrete inputs: a configuration without parameters is stored, and one with an
empty method is refused while the stored configuration stays. -/
theorem C9_Init_validates_witness :
    Init ⟨none⟩ ⟨ascii "\x7b\"url\":\"u\",\"method\":\"POST\"\x7d"⟩
      = (⟨some ⟨ascii "u", ascii "POST", false, 0, none⟩⟩, none) ∧
    ((Init ⟨some ⟨ascii "u", ascii "POST", false, 0, none⟩⟩
        ⟨ascii "\x7b\"url\":\"v\",\"method\":\"\",\"parameters\":\x7b\"a\":\"b\"\x7d\x7d"⟩).1
      = ⟨some ⟨ascii "u", ascii "POST", false, 0, none⟩⟩ ∧
    ∃ msg, (Init ⟨some ⟨ascii "u", ascii "POST", false, 0, none⟩⟩
        ⟨ascii "\x7b\"url\":\"v\",\"method\":\"\",\"parameters\":\x7b\"a\":\"b\"\x7d\x7d"⟩).2
      = some (Err.status Code.InvalidArgument msg)) :=
  ⟨(C9_Init_validates ⟨none⟩ (ascii "\x7b\"url\":\"u\",\"method\":\"POST\"\x7d")
      ⟨ascii "u", ascii "POST", false, 0, none⟩ (by decide)).1 (by decide),
   (C9_Init_validates ⟨some ⟨ascii "u", ascii "POST", false, 0, none⟩⟩
      (ascii "\x7b\"url\":\"v\",\"method\":\"\",\"parameters\":\x7b\"a\":\"b\"\x7d\x7d")
      ⟨ascii "v", [], false, 0, some [(ascii "a", ascii "b")]⟩ (by decide)).2 (by decide)⟩

/-! ## Decoding errors that are dropped -/

set_option maxRecDepth 100000 in
/-- Claim C3 fails on the code: the second segment is the base64 text of a claims record followed
by `!`. The decoder returns an error together with the bytes it decoded before the error, the
whole claims record; `TokenRefresh` drops the error, reads the expiry `9999999999` from those
bytes and, in 2023 with the window 0, returns the current token with no request sent. -/
theorem C3_base64_error_keeps_decoded_claims :
    DecodeString (ascii "eyJleHAiOjk5OTk5OTk5OTl9!")
      = (ascii "\x7b\"exp\":9999999999\x7d", true) ∧
    (claimsOf (ascii "eyJleHAiOjk5OTk5OTk5OTl9!")).ExpireAt = 9999999999 ∧
    TokenRefresh ⟨some ⟨ascii "u", ascii "POST", false, 0, none⟩⟩
        (Env.sample (Unix 1700000000 0) [])
        ⟨ascii "bearer h.eyJleHAiOjk5OTk5OTk5OTl9!.s", ascii "p"⟩
      = (Outcome.ret (some ⟨ascii "bearer h.eyJleHAiOjk5OTk5OTk5OTl9!.s"⟩) none, []) := by
  decide

set_option maxRecDepth 100000 in
/-- Claim C5 fails on the code: the second segment is valid base64 and decodes to an object
with two `exp` members, a valid one and then a string. `json.Unmarshal` returns an
`UnmarshalTypeError` for the string after it has stored the valid expiry; `TokenRefresh` drops the
error and, in 2023 with the window 0, returns the current token with no request sent. -/
theorem C5_json_error_keeps_stored_expiry :
    DecodeString (ascii "eyJleHAiOjk5OTk5OTk5OTksImV4cCI6IngifQ")
      = (ascii "\x7b\"exp\":9999999999,\"exp\":\"x\"\x7d", false) ∧
    Unmarshal JWT.setField (ascii "\x7b\"exp\":9999999999,\"exp\":\"x\"\x7d") (⟨0⟩ : JWT)
      = (⟨9999999999⟩, some (JSONError.unmarshalType "string")) ∧
    TokenRefresh ⟨some ⟨ascii "u", ascii "POST", false, 0, none⟩⟩
        (Env.sample (Unix 1700000000 0) [])
        ⟨ascii "bearer h.eyJleHAiOjk5OTk5OTk5OTksImV4cCI6IngifQ.s", ascii "p"⟩
      = (Outcome.ret (some ⟨ascii "bearer h.eyJleHAiOjk5OTk5OTk5OTksImV4cCI6IngifQ.s"⟩) none, []) := by
  decide

/-! ## `strings.Replace` against the left-to-right substitution -/

theorem HasPrefix_eq_append (s p : GoString) (h : HasPrefix s p = true) :
    s = p ++ s.drop p.length := by
  induction p generalizing s with
  | nil => simp
  | cons a p ih =>
    cases s with
    | nil => simp [HasPrefix] at h
    | cons c s =>
      simp only [HasPrefix, Bool.and_eq_true, beq_iff_eq] at h
      have := ih s h.2
      simp only [List.length_cons, List.drop_succ_cons, List.cons_append, List.cons.injEq]
      exact ⟨h.1, this⟩

theorem Index_ge (s old : GoString) : -1 ≤ Index s old := by
  induction s with
  | nil => simp only [Index]; split_ifs <;> omega
  | cons c s ih => simp only [Index]; split_ifs <;> omega

theorem Index_nil (old : GoString) (hold : old ≠ []) : Index [] old = -1 := by
  simp [Index, hold]

theorem substitute_skip (mark psi : GoString) (k : Nat) (s : GoString) :
    substitute mark psi k s = substitute mark psi 0 (s.drop k) := by
  induction k generalizing s with
  | zero => simp
  | succ k ih =>
    cases s with
    | nil => simp [substitute]
    | cons c s => simp [substitute, ih]

theorem substitute_of_absent (old psi s : GoString) (_hold : old ≠ [])
    (h : Index s old = -1) : substitute old psi 0 s = s := by
  induction s with
  | nil => simp [substitute]
  | cons c s ih =>
    have hge := Index_ge s old
    simp only [Index] at h
    split_ifs at h with hp hr
    · have hs : Index s old = -1 := by omega
      simp [substitute, hp, ih hs]
    · omega

theorem Index_cons (c : Nat) (s old : GoString) :
    Index (c :: s) old
      = if HasPrefix (c :: s) old then 0 else if Index s old < 0 then -1 else Index s old + 1 := by
  simp [Index]

theorem substitute_of_present (old psi s : GoString) (hold : old ≠ [])
    (h : 0 ≤ Index s old) :
    substitute old psi 0 s
      = s.take (Index s old).toNat ++ psi
        ++ substitute old psi 0 (s.drop ((Index s old).toNat + old.length)) := by
  induction s with
  | nil => rw [Index_nil old hold] at h; omega
  | cons c s ih =>
    have hlen : 0 < old.length := List.length_pos.mpr hold
    rw [Index_cons] at h ⊢
    by_cases hp : HasPrefix (c :: s) old = true
    · simp only [substitute, hp, if_true, Int.toNat_zero, List.take_zero, List.nil_append,
        Nat.zero_add]
      rw [substitute_skip]
      obtain ⟨n, hn⟩ : ∃ n, old.length = n + 1 := ⟨old.length - 1, by omega⟩
      simp [hn]
    · simp only [hp, Bool.false_eq_true, if_false] at h ⊢
      by_cases hr : Index s old < 0
      · simp only [hr, if_true] at h; omega
      · simp only [hr, if_false] at h ⊢
        have hge : 0 ≤ Index s old := by omega
        have hnat : (Index s old + 1).toNat = (Index s old).toNat + 1 := by omega
        have hadd : (Index s old).toNat + 1 + old.length
            = ((Index s old).toNat + old.length) + 1 := by omega
        simp only [substitute, hp, Bool.false_eq_true, if_false, hnat, List.take_succ_cons,
          List.cons_append, hadd, List.drop_succ_cons]
        rw [ih hge]

theorem Index_occurrence (s old : GoString) (h : 0 ≤ Index s old) :
    s = s.take (Index s old).toNat ++ old ++ s.drop ((Index s old).toNat + old.length) := by
  induction s with
  | nil =>
    simp only [Index] at h ⊢
    split_ifs at h with h0
    · simp [h0]
    · omega
  | cons c s ih =>
    rw [Index_cons] at h ⊢
    by_cases hp : HasPrefix (c :: s) old = true
    · simp only [hp, if_true, Int.toNat_zero, List.take_zero, List.nil_append, Nat.zero_add]
      exact HasPrefix_eq_append (c :: s) old hp
    · simp only [hp, Bool.false_eq_true, if_false] at h ⊢
      by_cases hr : Index s old < 0
      · simp only [hr, if_true] at h; omega
      · simp only [hr, if_false] at h ⊢
        have hge : 0 ≤ Index s old := by omega
        have hnat : (Index s old + 1).toNat = (Index s old).toNat + 1 := by omega
        have hadd : (Index s old).toNat + 1 + old.length
            = ((Index s old).toNat + old.length) + 1 := by omega
        simp only [hnat, List.take_succ_cons, List.cons_append, hadd, List.drop_succ_cons,
          List.cons.injEq, true_and]
        exact ih hge

theorem countLoop_acc (old : GoString) (fuel : Nat) (s : GoString) (n : Int) :
    countLoop old fuel s n = n + countLoop old fuel s 0 := by
  induction fuel generalizing s n with
  | zero => simp [countLoop]
  | succ fuel ih =>
    simp only [countLoop]
    split_ifs
    · simp
    · rw [ih _ (n + 1), ih _ (0 + 1)]; ring

theorem countLoop_nonneg (old : GoString) (fuel : Nat) (s : GoString) :
    0 ≤ countLoop old fuel s 0 := by
  induction fuel generalizing s with
  | zero => simp [countLoop]
  | succ fuel ih =>
    simp only [countLoop]
    split_ifs
    · simp
    · rw [countLoop_acc]; have := ih (s.drop ((Index s old).toNat + old.length)); omega

theorem replaceLoop_countLoop (old psi : GoString) (hold : old ≠ []) (fuel : Nat) (s : GoString)
    (hfuel : s.length < fuel) :
    replaceLoop old psi (countLoop old fuel s 0).toNat s = substitute old psi 0 s := by
  induction fuel generalizing s with
  | zero => omega
  | succ fuel ih =>
    have hlen : 0 < old.length := List.length_pos.mpr hold
    simp only [countLoop]
    split_ifs with hi
    · simp [replaceLoop, substitute_of_absent old psi s hold hi]
    · have hge : 0 ≤ Index s old := by have := Index_ge s old; omega
      have hs : s ≠ [] := by
        intro h0; subst h0; exact hi (Index_nil old hold)
      have hpos : 0 < s.length := List.length_pos.mpr hs
      have hshort : (s.drop ((Index s old).toNat + old.length)).length < fuel := by
        simp only [List.length_drop]; omega
      rw [countLoop_acc]
      have hnn := countLoop_nonneg old fuel (s.drop ((Index s old).toNat + old.length))
      have hnat : (0 + 1 + countLoop old fuel (s.drop ((Index s old).toNat + old.length)) 0).toNat
          = (countLoop old fuel (s.drop ((Index s old).toNat + old.length)) 0).toNat + 1 := by
        omega
      rw [hnat]
      simp only [replaceLoop]
      rw [ih _ hshort, substitute_of_present old psi s hold hge]

theorem substitute_self_aux (old : GoString) (hold : old ≠ []) (n : Nat) :
    ∀ s : GoString, s.length ≤ n → substitute old old 0 s = s := by
  have hlen : 0 < old.length := List.length_pos.mpr hold
  induction n with
  | zero =>
    intro s hs
    have : s = [] := List.length_eq_zero.mp (by omega)
    subst this
    simp [substitute]
  | succ n ih =>
    intro s hs
    by_cases hi : Index s old = -1
    · exact substitute_of_absent old old s hold hi
    · have hge : 0 ≤ Index s old := by have := Index_ge s old; omega
      rw [substitute_of_present old old s hold hge]
      rw [ih (s.drop ((Index s old).toNat + old.length))
        (by simp only [List.length_drop]; omega)]
      exact (Index_occurrence s old hge).symm

theorem substitute_self (old s : GoString) (hold : old ≠ []) : substitute old old 0 s = s :=
  substitute_self_aux old hold s.length s (Nat.le_refl _)

/-- Go `strings.Replace(s, old, new, -1)`, for an `old` of two bytes or more, is the substitution
read from left to right. -/
theorem Replace_eq_substitute (s psi : GoString) (a b : Nat) (rest : GoString) :
    Replace s (a :: b :: rest) psi (-1) = substitute (a :: b :: rest) psi 0 s := by
  have hold : a :: b :: rest ≠ [] := by simp
  have hcount : Count s (a :: b :: rest) = countLoop (a :: b :: rest) (s.length + 1) s 0 := rfl
  by_cases h1 : a :: b :: rest = psi
  · have : Replace s (a :: b :: rest) psi (-1) = s := by simp [Replace, h1]
    rw [this, ← h1]
    exact (substitute_self _ s hold).symm
  · by_cases h2 : Count s (a :: b :: rest) = 0
    · have : Replace s (a :: b :: rest) psi (-1) = s := by simp [Replace, h2]
      rw [this]
      rw [hcount] at h2
      simp only [countLoop] at h2
      split_ifs at h2 with hi
      · exact (substitute_of_absent _ psi s hold hi).symm
      · rw [countLoop_acc] at h2
        have := countLoop_nonneg (a :: b :: rest) s.length
          (s.drop ((Index s (a :: b :: rest)).toNat + (a :: b :: rest).length))
        omega
    · have : Replace s (a :: b :: rest) psi (-1)
          = replaceLoop (a :: b :: rest) psi (Count s (a :: b :: rest)).toNat s := by
        simp [Replace, h1, h2]
      rw [this, hcount]
      exact replaceLoop_countLoop _ psi hold (s.length + 1) s (by omega)

theorem Replace_marker (s psi : GoString) :
    Replace s marker psi (-1) = substitute marker psi 0 s :=
  Replace_eq_substitute s psi 36 123 [80, 83, 73, 125]

/-! ## The payload of the request -/

theorem foldl_append_eq_map {α β : Type} (f : α → β) (l : List α) (acc : List β) :
    l.foldl (fun fields x => fields ++ [f x]) acc = acc ++ l.map f := by
  induction l generalizing acc with
  | nil => simp
  | cons x l ih => simp [ih]

theorem mapSet_of_absent {V : Type} (m : List (GoString × V)) (k : GoString) (v : V)
    (h : k ∉ m.map Prod.fst) : mapSet m k v = m ++ [(k, v)] := by
  induction m with
  | nil => simp [mapSet]
  | cons e m ih =>
    simp only [List.map_cons, List.mem_cons, not_or] at h
    have hne : ¬ e.1 = k := fun h' => h.1 h'.symm
    simp [mapSet, hne, ih h.2]

theorem foldl_mapSet_eq_map {V : Type} (g : GoString × GoString → V)
    (l : List (GoString × GoString)) (acc : List (GoString × V))
    (hnodup : (l.map Prod.fst).Nodup)
    (hdisj : ∀ k ∈ l.map Prod.fst, k ∉ acc.map Prod.fst) :
    l.foldl (fun m kt => mapSet m kt.1 (g kt)) acc = acc ++ l.map (fun kt => (kt.1, g kt)) := by
  induction l generalizing acc with
  | nil => simp
  | cons x l ih =>
    simp only [List.map_cons, List.nodup_cons] at hnodup
    have hx : x.1 ∉ acc.map Prod.fst := hdisj x.1 (by simp)
    simp only [List.foldl_cons, mapSet_of_absent acc x.1 (g x) hx]
    rw [ih _ hnodup.2]
    · simp
    · intro k hk
      simp only [List.map_append, List.map_cons, List.map_nil, List.mem_append, List.mem_singleton,
        not_or]
      refine ⟨hdisj k (by simp [hk]), ?_⟩
      intro hkx
      subst hkx
      exact hnodup.1 hk

theorem flatMap_singleton_values {α β : Type} (f : α → β) (l : List α) :
    (l.map (fun x => [f x])).flatten = l.map f := by
  induction l with
  | nil => simp
  | cons x l ih => simp [ih]

/-- The pairs of the payload are the entries of the map in the order of the iteration, each
template resolved by the left-to-right substitution, whatever the method is. -/
theorem buildPayload_pairs (cfg : config) (env : Env) (psi : GoString)
    (hkeys : ((cfg.Parameters.getD []).map Prod.fst).Nodup) :
    (buildPayload cfg env psi).pairs
      = (env.rangeOrder (cfg.Parameters.getD [])).map
          (fun kt => (kt.1, substitute marker psi 0 kt.2)) := by
  have hperm := env.rangeOrder_perm (cfg.Parameters.getD [])
  have hnodup : ((env.rangeOrder (cfg.Parameters.getD [])).map Prod.fst).Nodup :=
    ((hperm.map Prod.fst).nodup_iff).mpr hkeys
  unfold buildPayload
  simp only [Replace_marker]
  split_ifs
  · simp [Payload.pairs, foldl_append_eq_map]
  · rw [foldl_mapSet_eq_map (fun kt => [substitute marker psi 0 kt.2]) _ [] hnodup (by simp)]
    simp only [Payload.pairs, List.flatMap, List.nil_append, List.map_map, Function.comp_def,
      List.map_cons, List.map_nil]
    exact flatMap_singleton_values
      (fun kt : GoString × GoString => (kt.1, substitute marker psi 0 kt.2)) _
  · rw [foldl_mapSet_eq_map (fun kt => substitute marker psi 0 kt.2) _ [] hnodup (by simp)]
    simp [Payload.pairs]

/-- The pairs of the payload are, up to the order in which `range` visits the map, the configured
entries with every template resolved by the left-to-right substitution of the marker; their keys
are exactly the configured keys, one pair per key; and the method selects the encoding (multipart
form for POST or PUT, query values for GET, JSON object for any other method). -/
theorem buildPayload_resolved (cfg : config) (env : Env) (psi : GoString)
    (hkeys : ((cfg.Parameters.getD []).map Prod.fst).Nodup) :
    ((buildPayload cfg env psi).pairs).Perm
      ((cfg.Parameters.getD []).map (fun kt => (kt.1, substitute marker psi 0 kt.2))) ∧
    (((buildPayload cfg env psi).pairs).map Prod.fst).Perm
      ((cfg.Parameters.getD []).map Prod.fst) ∧
    (((buildPayload cfg env psi).pairs).map Prod.fst).Nodup ∧
    (cfg.Method = ascii "POST" ∨ cfg.Method = ascii "PUT" →
      ∃ fields, buildPayload cfg env psi = Payload.multipart fields) ∧
    (cfg.Method = ascii "GET" → ∃ values, buildPayload cfg env psi = Payload.query values) ∧
    (cfg.Method ≠ ascii "POST" ∧ cfg.Method ≠ ascii "PUT" ∧ cfg.Method ≠ ascii "GET" →
      ∃ m, buildPayload cfg env psi = Payload.jsonBody m) := by
  have hperm := env.rangeOrder_perm (cfg.Parameters.getD [])
  have hpairs := buildPayload_pairs cfg env psi hkeys
  have h1 : ((buildPayload cfg env psi).pairs).Perm
      ((cfg.Parameters.getD []).map (fun kt => (kt.1, substitute marker psi 0 kt.2))) := by
    rw [hpairs]; exact hperm.map _
  have h2 : (((buildPayload cfg env psi).pairs).map Prod.fst).Perm
      ((cfg.Parameters.getD []).map Prod.fst) := by
    have := h1.map Prod.fst
    simpa [List.map_map, Function.comp_def] using this
  refine ⟨h1, h2, (h2.nodup_iff).mpr hkeys, ?_, ?_, ?_⟩
  · intro hm
    exact ⟨_, by simp only [buildPayload, hm, if_true]; rfl⟩
  · intro hm
    have hne : ¬ (ascii "GET" = ascii "POST" ∨ ascii "GET" = ascii "PUT") := by decide
    exact ⟨_, by simp only [buildPayload, hm, hne, if_false, if_true]; rfl⟩
  · rintro ⟨h3, h4, h5⟩
    exact ⟨_, by simp only [buildPayload, h3, h4, h5, or_self, if_false]; rfl⟩

/-- With a method other than GET, a fetch whose method and URL are accepted sends exactly the
request of `buildRequest`. -/
theorem fetch_sends_request (cfg : config) (env : Env) (req : TokenRefresh_Request)
    (hget : cfg.Method ≠ ascii "GET")
    (hreq : env.newRequest cfg.Method cfg.URL (buildPayload cfg env req.Psi) = none) :
    (fetch cfg env req).2 = [buildRequest cfg env req.Psi] := by
  unfold fetch
  rw [hreq]
  cases env.exchange (buildRequest cfg env req.Psi) with
  | error err => simp [hget]
  | ok data => simp [hget]

/-- A call of `TokenRefresh` whose token has a second segment that is not fresh goes on with the
fetch. -/
theorem TokenRefresh_stale (cfg : config) (env : Env) (req : TokenRefresh_Request)
    (segment : GoString)
    (hseg : (tokenSegments req.CurrentToken).get? 1 = some segment)
    (hstale : stillFresh env.now (claimsOf segment) cfg.RefreshAnticipationInMillisecond = false) :
    TokenRefresh ⟨some cfg⟩ env req = fetch cfg env req := by
  simp only [TokenRefresh, hseg]
  simp [hstale]

/-- Claim C8 fails on the code for the query-string encoding. For every configuration (its
parameters a map, that is with distinct keys), every PSI value and every call of `TokenRefresh`
whose token has a second segment that is not fresh and whose method and URL are accepted by
`http.NewRequestWithContext`: the key/value pairs built for the request are, up to the order in
which `range` visits the map, the configured entries with every template resolved by the
left-to-right substitution of the marker, with exactly the configured keys, one pair per key.
With the method GET these pairs are built as query values, but `TokenRefresh` then panics on the
nil `*bytes.Reader` of line 193 and no request is sent, so no outbound request carries them. With
every other method exactly one request is sent, it is the request of `buildRequest`, and it
carries these pairs as a multipart form (POST or PUT) or as a JSON object (any other method). -/
theorem C8_GET_parameters_are_never_sent (cfg : config) (env : Env)
    (req : TokenRefresh_Request) (segment : GoString)
    (hkeys : ((cfg.Parameters.getD []).map Prod.fst).Nodup)
    (hseg : (tokenSegments req.CurrentToken).get? 1 = some segment)
    (hstale : stillFresh env.now (claimsOf segment) cfg.RefreshAnticipationInMillisecond = false)
    (hreq : env.newRequest cfg.Method cfg.URL (buildPayload cfg env req.Psi) = none) :
    ((buildPayload cfg env req.Psi).pairs).Perm
      ((cfg.Parameters.getD []).map (fun kt => (kt.1, substitute marker req.Psi 0 kt.2))) ∧
    (((buildPayload cfg env req.Psi).pairs).map Prod.fst).Perm
      ((cfg.Parameters.getD []).map Prod.fst) ∧
    (((buildPayload cfg env req.Psi).pairs).map Prod.fst).Nodup ∧
    (cfg.Method = ascii "GET" →
      (∃ values, buildPayload cfg env req.Psi = Payload.query values) ∧
      TokenRefresh ⟨some cfg⟩ env req = (Outcome.panic Panic.nilPointerDereference, [])) ∧
    (cfg.Method ≠ ascii "GET" →
      (TokenRefresh ⟨some cfg⟩ env req).2 = [buildRequest cfg env req.Psi] ∧
      (buildRequest cfg env req.Psi).payload = buildPayload cfg env req.Psi ∧
      (cfg.Method = ascii "POST" ∨ cfg.Method = ascii "PUT" →
        ∃ fields, buildPayload cfg env req.Psi = Payload.multipart fields) ∧
      (cfg.Method ≠ ascii "POST" ∧ cfg.Method ≠ ascii "PUT" →
        ∃ m, buildPayload cfg env req.Psi = Payload.jsonBody m)) := by
  obtain ⟨h1, h2, h3, hform, hquery, hjson⟩ := buildPayload_resolved cfg env req.Psi hkeys
  have hfetch := TokenRefresh_stale cfg env req segment hseg hstale
  refine ⟨h1, h2, h3, ?_, ?_⟩
  · intro hget
    exact ⟨hquery hget, by rw [hfetch]; exact fetch_GET_panics cfg env req hget hreq⟩
  · intro hget
    refine ⟨by rw [hfetch]; exact fetch_sends_request cfg env req hget hreq, rfl, hform, ?_⟩
    rintro ⟨h4, h5⟩
    exact hjson ⟨h4, h5, hget⟩

set_option maxRecDepth 100000 in
/-- Claim C8 at a concrete input: two templates, one of them with the marker twice, and the PSI
value `PS1`, in a call with an expired token. With the method GET the resolved pairs are built
and the call panics with no request sent; with the method POST the same call sends one request
that carries the resolved pairs as a multipart form. -/
theorem C8_GET_parameters_are_never_sent_witness :
    (((buildPayload
        ⟨ascii "https://h/token", ascii "GET", false, 0,
          some [(ascii "client_id", ascii "$\x7bPSI\x7d"),
            (ascii "scope", ascii "psi://$\x7bPSI\x7d?a=$\x7bPSI\x7d$")]⟩
        (Env.sample (Unix 1700000000 0) []) (ascii "PS1")).pairs).Perm
      [(ascii "client_id", ascii "PS1"), (ascii "scope", ascii "psi://PS1?a=PS1$")] ∧
    TokenRefresh
        ⟨some ⟨ascii "https://h/token", ascii "GET", false, 0,
          some [(ascii "client_id", ascii "$\x7bPSI\x7d"),
            (ascii "scope", ascii "psi://$\x7bPSI\x7d?a=$\x7bPSI\x7d$")]⟩⟩
        (Env.sample (Unix 1700000000 0) []) ⟨ascii "bearer h.eyJleHAiOjEwMH0.s", ascii "PS1"⟩
      = (Outcome.panic Panic.nilPointerDereference, [])) ∧
    (TokenRefresh
        ⟨some ⟨ascii "https://h/token", ascii "POST", false, 0,
          some [(ascii "client_id", ascii "$\x7bPSI\x7d"),
            (ascii "scope", ascii "psi://$\x7bPSI\x7d?a=$\x7bPSI\x7d$")]⟩⟩
        (Env.sample (Unix 1700000000 0) []) ⟨ascii "bearer h.eyJleHAiOjEwMH0.s", ascii "PS1"⟩).2
      = [⟨ascii "POST", ascii "https://h/token",
          Payload.multipart
            [(ascii "client_id", ascii "PS1"), (ascii "scope", ascii "psi://PS1?a=PS1$")],
          true, false⟩] :=
  ⟨⟨(C8_GET_parameters_are_never_sent
        ⟨ascii "https://h/token", ascii "GET", false, 0,
          some [(ascii "client_id", ascii "$\x7bPSI\x7d"),
            (ascii "scope", ascii "psi://$\x7bPSI\x7d?a=$\x7bPSI\x7d$")]⟩
        (Env.sample (Unix 1700000000 0) []) ⟨ascii "bearer h.eyJleHAiOjEwMH0.s", ascii "PS1"⟩
        (ascii "eyJleHAiOjEwMH0") (by decide) (by decide) (by decide) rfl).1,
      ((C8_GET_parameters_are_never_sent
        ⟨ascii "https://h/token", ascii "GET", false, 0,
          some [(ascii "client_id", ascii "$\x7bPSI\x7d"),
            (ascii "scope", ascii "psi://$\x7bPSI\x7d?a=$\x7bPSI\x7d$")]⟩
        (Env.sample (Unix 1700000000 0) []) ⟨ascii "bearer h.eyJleHAiOjEwMH0.s", ascii "PS1"⟩
        (ascii "eyJleHAiOjEwMH0") (by decide) (by decide) (by decide) rfl).2.2.2.1 rfl).2⟩,
    ((C8_GET_parameters_are_never_sent
        ⟨ascii "https://h/token", ascii "POST", false, 0,
          some [(ascii "client_id", ascii "$\x7bPSI\x7d"),
            (ascii "scope", ascii "psi://$\x7bPSI\x7d?a=$\x7bPSI\x7d$")]⟩
        (Env.sample (Unix 1700000000 0) []) ⟨ascii "bearer h.eyJleHAiOjEwMH0.s", ascii "PS1"⟩
        (ascii "eyJleHAiOjEwMH0") (by decide) (by decide) (by decide) rfl).2.2.2.2
      (by decide)).1⟩

/-! ## `unicode/utf8`: a valid rune is decoded and encoded back -/

theorem DecodeRune_cases (p0 : Nat) (t : GoString) (hp : ¬ p0 < 128) :
    DecodeRune (p0 :: t) = (RuneError, 1) ∨
      RuneAt (p0 :: t) (DecodeRune (p0 :: t)).1 (DecodeRune (p0 :: t)).2 := by
  unfold DecodeRune
  simp only [hp, if_false]
  by_cases h1 : p0 < 194
  · simp [h1]
  simp only [h1, if_false]
  by_cases h2 : p0 < 224
  · simp only [h2, if_true]
    rcases t with _ | ⟨b1, rest⟩
    · simp
    · simp only [isCont, decide_eq_true_eq]
      by_cases hc : 128 ≤ b1 ∧ b1 ≤ 191
      · simp only [hc, and_self, if_true]
        exact Or.inr (RuneAt.two p0 b1 rest ⟨by omega, h2⟩ hc)
      · simp [hc]
  simp only [h2, if_false]
  by_cases h3 : p0 < 240
  · simp only [h3, if_true]
    rcases t with _ | ⟨b1, _ | ⟨b2, rest⟩⟩
    · simp
    · simp
    · simp only [isCont, decide_eq_true_eq]
      by_cases hc : (if p0 = 224 then 160 else 128) ≤ b1 ∧ b1 ≤ (if p0 = 237 then 159 else 191) ∧
          (128 ≤ b2 ∧ b2 ≤ 191)
      · simp only [hc, and_self, if_true]
        exact Or.inr (RuneAt.three p0 b1 b2 rest ⟨by omega, h3⟩ ⟨hc.1, hc.2.1⟩ hc.2.2)
      · simp [hc]
  simp only [h3, if_false]
  by_cases h4 : p0 < 245
  · simp only [h4, if_true]
    rcases t with _ | ⟨b1, _ | ⟨b2, _ | ⟨b3, rest⟩⟩⟩
    · simp
    · simp
    · simp
    · simp only [isCont, decide_eq_true_eq]
      by_cases hc : (if p0 = 240 then 144 else 128) ≤ b1 ∧ b1 ≤ (if p0 = 244 then 143 else 191) ∧
          (128 ≤ b2 ∧ b2 ≤ 191) ∧ (128 ≤ b3 ∧ b3 ≤ 191)
      · simp only [hc, and_self, if_true]
        exact Or.inr (RuneAt.four p0 b1 b2 b3 rest ⟨by omega, h4⟩ ⟨hc.1, hc.2.1⟩ hc.2.2.1
          hc.2.2.2)
      · simp [hc]
  simp [h4]

theorem RuneAt.high {s : GoString} {r n : Nat} (h : RuneAt s r n) : ∀ b ∈ s.take n, 128 ≤ b := by
  cases h with
  | two p0 b1 rest h0 h1 =>
    intro b hb
    simp only [List.take_succ_cons, List.take_zero, List.mem_cons, List.mem_nil_iff,
      or_false] at hb
    rcases hb with hb | hb <;> omega
  | three p0 b1 b2 rest h0 h1 h2 =>
    intro b hb
    simp only [List.take_succ_cons, List.take_zero, List.mem_cons, List.mem_nil_iff,
      or_false] at hb
    split_ifs at h1 <;> rcases hb with hb | hb | hb <;> omega
  | four p0 b1 b2 b3 rest h0 h1 h2 h3 =>
    intro b hb
    simp only [List.take_succ_cons, List.take_zero, List.mem_cons, List.mem_nil_iff,
      or_false] at hb
    split_ifs at h1 <;> rcases hb with hb | hb | hb | hb <;> omega

theorem RuneAt.size {s : GoString} {r n : Nat} (h : RuneAt s r n) :
    2 ≤ n ∧ n ≤ s.length := by
  cases h <;> simp

theorem RuneAt.decode_take_append {s : GoString} {r n : Nat} (h : RuneAt s r n) (y : GoString) :
    DecodeRune (s.take n ++ y) = (r, n) := by
  cases h with
  | two p0 b1 rest h0 h1 =>
    have e1 : ¬ p0 < 128 := by omega
    have e2 : ¬ p0 < 194 := by omega
    have e3 : p0 < 224 := by omega
    simp [DecodeRune, e1, e2, e3, isCont, h1]
  | three p0 b1 b2 rest h0 h1 h2 =>
    have e1 : ¬ p0 < 128 := by omega
    have e2 : ¬ p0 < 194 := by omega
    have e3 : ¬ p0 < 224 := by omega
    have e4 : p0 < 240 := by omega
    simp [DecodeRune, e1, e2, e3, e4, isCont, h1, h2]
  | four p0 b1 b2 b3 rest h0 h1 h2 h3 =>
    have e1 : ¬ p0 < 128 := by omega
    have e2 : ¬ p0 < 194 := by omega
    have e3 : ¬ p0 < 224 := by omega
    have e4 : ¬ p0 < 240 := by omega
    have e5 : p0 < 245 := by omega
    simp [DecodeRune, e1, e2, e3, e4, e5, isCont, h1, h2, h3]

/-! ## `encoding/json`: a string literal is read back -/

theorem scanStr_plain_byte (b : Nat) (X : GoString) (h : b ≠ 34 ∧ b ≠ 92 ∧ 32 ≤ b) :
    scanStr StrState.inString (b :: X)
      = (scanStr StrState.inString X).map (fun r => (b :: r.1, r.2)) := by
  have h3 : ¬ b < 32 := by omega
  simp [scanStr, h.1, h.2.1, h3]

theorem scanStr_plain (bs X : GoString) (h : ∀ b ∈ bs, b ≠ 34 ∧ b ≠ 92 ∧ 32 ≤ b) :
    scanStr StrState.inString (bs ++ X)
      = (scanStr StrState.inString X).map (fun r => (bs ++ r.1, r.2)) := by
  induction bs with
  | nil =>
    simp only [List.nil_append]
    cases scanStr StrState.inString X <;> rfl
  | cons b bs ih =>
    rw [List.cons_append, scanStr_plain_byte b _ (h b (by simp)),
      ih (fun c hc => h c (by simp [hc]))]
    cases scanStr StrState.inString X <;> rfl

theorem RuneAt.decode {s : GoString} {r n : Nat} (h : RuneAt s r n) : DecodeRune s = (r, n) := by
  have := h.decode_take_append (s.drop n)
  rwa [List.take_append_drop] at this

theorem unquoteLoop_nil (F : Nat) : unquoteLoop F [] = some [] := by
  cases F <;> simp [unquoteLoop]

theorem unquoteLoop_plain_byte (F b : Nat) (R : GoString)
    (h : b ≠ 34 ∧ b ≠ 92 ∧ 32 ≤ b ∧ b < 128) :
    unquoteLoop (F + 1) (b :: R) = (unquoteLoop F R).map (fun r => b :: r) := by
  have h3 : ¬ b < 32 := by omega
  simp [unquoteLoop, h.1, h.2.1, h3, h.2.2.2]

theorem unquoteLoop_rune (F : Nat) (x : GoString) (r n : Nat) (h : RuneAt x r n) :
    unquoteLoop (F + 1) x = (unquoteLoop F (x.drop n)).map (fun y => EncodeRune r ++ y) := by
  have hd := h.decode
  have hhigh := h.high
  have hsz := h.size
  rcases x with _ | ⟨c, t⟩
  · simp at hsz; omega
  · have hc : 128 ≤ c := hhigh c (by
      obtain ⟨m, hm⟩ : ∃ m, n = m + 1 := ⟨n - 1, by omega⟩
      simp [hm])
    have e1 : c ≠ 92 := by omega
    have e2 : ¬ (c = 34 ∨ c < 32) := by omega
    have e3 : ¬ c < 128 := by omega
    simp only [unquoteLoop, e1, e2, e3, if_false, hd]

theorem scanStr_inString_inv (c : Nat) (s raw rest : GoString)
    (h : scanStr StrState.inString (c :: s) = some (raw, rest)) :
    (c = 34 ∧ raw = [] ∧ rest = s) ∨
    (c = 92 ∧ ∃ r1, raw = 92 :: r1 ∧ scanStr StrState.esc s = some (r1, rest)) ∨
    (c ≠ 34 ∧ c ≠ 92 ∧ 32 ≤ c ∧
      ∃ r1, raw = c :: r1 ∧ scanStr StrState.inString s = some (r1, rest)) := by
  simp only [scanStr] at h
  by_cases h1 : c = 34
  · simp only [h1, if_true, Option.some.injEq, Prod.mk.injEq] at h
    exact Or.inl ⟨h1, h.1.symm, h.2.symm⟩
  · simp only [h1, if_false] at h
    by_cases h2 : c = 92
    · simp only [h2, if_true, Option.map_eq_some', Prod.mk.injEq] at h
      obtain ⟨⟨r1, r2⟩, hs, hr, hrest⟩ := h
      exact Or.inr (Or.inl ⟨h2, r1, hr.symm, by rw [hs, ← hrest]⟩)
    · simp only [h2, if_false] at h
      by_cases h3 : c < 32
      · simp [h3] at h
      · simp only [h3, if_false, Option.map_eq_some', Prod.mk.injEq] at h
        obtain ⟨⟨r1, r2⟩, hs, hr, hrest⟩ := h
        exact Or.inr (Or.inr ⟨h1, h2, by omega, r1, hr.symm, by rw [hs, ← hrest]⟩)

theorem scanStr_u_inv (k c : Nat) (s raw rest : GoString)
    (h : scanStr (StrState.u k) (c :: s) = some (raw, rest)) :
    isHex c = true ∧ ∃ r1, raw = c :: r1 ∧
      scanStr (if k ≤ 1 then StrState.inString else StrState.u (k - 1)) s = some (r1, rest) := by
  simp only [scanStr] at h
  by_cases hc : isHex c = true
  · simp only [hc, if_true, Option.map_eq_some', Prod.mk.injEq] at h
    obtain ⟨⟨r1, r2⟩, hs, hr, hrest⟩ := h
    exact ⟨hc, r1, hr.symm, by rw [hs, ← hrest]⟩
  · simp [hc] at h

theorem scanStr_esc_inv (e : Nat) (s raw rest : GoString)
    (h : scanStr StrState.esc (e :: s) = some (raw, rest)) :
    ((e = 98 ∨ e = 102 ∨ e = 110 ∨ e = 114 ∨ e = 116 ∨ e = 92 ∨ e = 47 ∨ e = 34) ∧
      ∃ r2, raw = e :: r2 ∧ scanStr StrState.inString s = some (r2, rest)) ∨
    (e = 117 ∧ ∃ h1 h2 h3 h4 s' r5, s = h1 :: h2 :: h3 :: h4 :: s' ∧
      (isHex h1 = true ∧ isHex h2 = true ∧ isHex h3 = true ∧ isHex h4 = true) ∧
      raw = 117 :: h1 :: h2 :: h3 :: h4 :: r5 ∧
      scanStr StrState.inString s' = some (r5, rest)) := by
  simp only [scanStr] at h
  by_cases h1 : e = 98 ∨ e = 102 ∨ e = 110 ∨ e = 114 ∨ e = 116 ∨ e = 92 ∨ e = 47 ∨ e = 34
  · simp only [h1, if_true, Option.map_eq_some', Prod.mk.injEq] at h
    obtain ⟨⟨r1, r2⟩, hs, hr, hrest⟩ := h
    exact Or.inl ⟨h1, r1, hr.symm, by rw [hs, ← hrest]⟩
  · simp only [h1, if_false] at h
    by_cases h2 : e = 117
    · simp only [h2, if_true, Option.map_eq_some', Prod.mk.injEq] at h
      obtain ⟨⟨r1, r2⟩, hs, hr, hrest⟩ := h
      simp only at hr hrest
      subst hrest
      rcases s with _ | ⟨a1, s1⟩
      · simp [scanStr] at hs
      obtain ⟨x1, q1, e1, hs1⟩ := scanStr_u_inv 4 a1 s1 r1 r2 hs
      simp only [show ¬ (4 ≤ 1) by omega, if_false, show 4 - 1 = 3 by rfl] at hs1
      rcases s1 with _ | ⟨a2, s2⟩
      · simp [scanStr] at hs1
      obtain ⟨x2, q2, e2, hs2⟩ := scanStr_u_inv 3 a2 s2 q1 r2 hs1
      simp only [show ¬ (3 ≤ 1) by omega, if_false, show 3 - 1 = 2 by rfl] at hs2
      rcases s2 with _ | ⟨a3, s3⟩
      · simp [scanStr] at hs2
      obtain ⟨x3, q3, e3, hs3⟩ := scanStr_u_inv 2 a3 s3 q2 r2 hs2
      simp only [show ¬ (2 ≤ 1) by omega, if_false, show 2 - 1 = 1 by rfl] at hs3
      rcases s3 with _ | ⟨a4, s4⟩
      · simp [scanStr] at hs3
      obtain ⟨x4, q4, e4, hs4⟩ := scanStr_u_inv 1 a4 s4 q3 r2 hs3
      simp only [show (1 ≤ 1) by omega, if_true] at hs4
      refine Or.inr ⟨h2, a1, a2, a3, a4, s4, q4, rfl, ⟨x1, x2, x3, x4⟩, ?_, hs4⟩
      rw [← hr, e1, e2, e3, e4]
    · simp [h2] at h

theorem scanStr_input_aux (n : Nat) :
    ∀ s raw rest : GoString, s.length ≤ n →
      scanStr StrState.inString s = some (raw, rest) → s = raw ++ 34 :: rest := by
  induction n with
  | zero =>
    intro s raw rest hn h
    have : s = [] := List.length_eq_zero.mp (by omega)
    subst this
    simp [scanStr] at h
  | succ n ih =>
    intro s raw rest hn h
    rcases s with _ | ⟨c, s⟩
    · simp [scanStr] at h
    rcases scanStr_inString_inv c s raw rest h with ⟨h1, h2, h3⟩ | ⟨h1, r1, h2, h3⟩ |
      ⟨_, _, _, r1, h2, h3⟩
    · simp [h1, h2, h3]
    · rcases s with _ | ⟨e, s⟩
      · simp [scanStr] at h3
      rcases scanStr_esc_inv e s r1 rest h3 with ⟨_, r2, e2, h4⟩ |
        ⟨he, a1, a2, a3, a4, s', r5, hs, _, e5, h4⟩
      · have := ih s r2 rest (by simp at hn; omega) h4
        rw [h1, h2, e2]
        simp only [List.cons_append, List.cons.injEq, true_and]
        exact this
      · have := ih s' r5 rest (by simp [hs] at hn; omega) h4
        rw [h1, h2, e5, he, hs]
        simp only [List.cons_append, List.cons.injEq, true_and]
        exact this
    · have := ih s r1 rest (by simp at hn; omega) h3
      rw [h2]
      simp only [List.cons_append, List.cons.injEq, true_and]
      exact this

theorem scanStr_input (s raw rest : GoString)
    (h : scanStr StrState.inString s = some (raw, rest)) : s = raw ++ 34 :: rest :=
  scanStr_input_aux s.length s raw rest (Nat.le_refl _) h

theorem unquoteLoop_scanned_escape (F e : Nat) (R : GoString)
    (he : e = 98 ∨ e = 102 ∨ e = 110 ∨ e = 114 ∨ e = 116 ∨ e = 92 ∨ e = 47 ∨ e = 34) :
    ∃ v, unquoteLoop (F + 1) (92 :: e :: R) = (unquoteLoop F R).map (fun r => v :: r) := by
  rcases he with rfl | rfl | rfl | rfl | rfl | rfl | rfl | rfl
  · exact ⟨8, by simp [unquoteLoop]⟩
  · exact ⟨12, by simp [unquoteLoop]⟩
  · exact ⟨10, by simp [unquoteLoop]⟩
  · exact ⟨13, by simp [unquoteLoop]⟩
  · exact ⟨9, by simp [unquoteLoop]⟩
  · exact ⟨92, by simp [unquoteLoop]⟩
  · exact ⟨47, by simp [unquoteLoop]⟩
  · exact ⟨34, by simp [unquoteLoop]⟩

theorem getu4_nonneg (x : GoString) (h : 0 ≤ getu4 x) :
    ∃ g1 g2 g3 g4 t, x = 92 :: 117 :: g1 :: g2 :: g3 :: g4 :: t := by
  unfold getu4 at h
  split at h
  · exact ⟨_, _, _, _, _, rfl⟩
  · omega

theorem scanStr_drop_escape (g1 g2 g3 g4 : Nat) (t s raw rest : GoString)
    (h : scanStr StrState.inString s = some (raw, rest))
    (hraw : raw = 92 :: 117 :: g1 :: g2 :: g3 :: g4 :: t) :
    ∃ s', scanStr StrState.inString s' = some (t, rest) := by
  have hs := scanStr_input s raw rest h
  rw [hraw] at hs
  simp only [List.cons_append] at hs
  rw [hs] at h
  rcases scanStr_inString_inv _ _ _ _ h with ⟨h1, _⟩ | ⟨_, r1, e1, h3⟩ | ⟨_, h2, _⟩
  · omega
  · rcases scanStr_esc_inv _ _ _ _ h3 with ⟨he, _⟩ | ⟨_, a1, a2, a3, a4, s', r5, hs', _, e5, h4⟩
    · omega
    · refine ⟨s', ?_⟩
      rw [hraw, e5] at e1
      simp only [List.cons.injEq, true_and] at e1
      rw [e1.2.2.2.2]
      exact h4
  · omega

theorem scanStr_drop_plain (n : Nat) (s raw rest : GoString)
    (h : scanStr StrState.inString s = some (raw, rest))
    (hp : ∀ b ∈ raw.take n, b ≠ 34 ∧ b ≠ 92 ∧ 32 ≤ b) :
    scanStr StrState.inString (raw.drop n ++ 34 :: rest) = some (raw.drop n, rest) := by
  have hs := scanStr_input s raw rest h
  have hsplit : s = raw.take n ++ (raw.drop n ++ 34 :: rest) := by
    rw [← List.append_assoc, List.take_append_drop]; exact hs
  rw [hsplit, scanStr_plain _ _ hp] at h
  simp only [Option.map_eq_some', Prod.mk.injEq] at h
  obtain ⟨⟨r1, r2⟩, hscan, hr, hrest⟩ := h
  simp only at hr hrest
  have : r1 = raw.drop n := by
    have h2 : raw.take n ++ r1 = raw.take n ++ raw.drop n := by
      rw [hr, List.take_append_drop]
    exact List.append_cancel_left h2
  rw [hscan, this, hrest]

/-- What the scanner accepts as a string literal, `unquoteBytes` unquotes: `parseString` fails
exactly where the scanner fails. -/
theorem unquoteLoop_of_scanned (n : Nat) :
    ∀ s raw rest : GoString, raw.length ≤ n →
      scanStr StrState.inString s = some (raw, rest) →
      ∀ F, raw.length ≤ F → (unquoteLoop F raw).isSome = true := by
  induction n with
  | zero =>
    intro s raw rest hn _ F _
    have : raw = [] := List.length_eq_zero.mp (by omega)
    subst this
    simp [unquoteLoop_nil]
  | succ n ih =>
    intro s raw rest hn h F hF
    rcases s with _ | ⟨c, s⟩
    · simp [scanStr] at h
    rcases scanStr_inString_inv c s raw rest h with ⟨_, h2, _⟩ | ⟨h1, r1, h2, h3⟩ |
      ⟨h34, h92, h32, r1, h2, h3⟩
    · simp [h2, unquoteLoop_nil]
    · -- an escape
      rcases s with _ | ⟨e, s⟩
      · simp [scanStr] at h3
      rcases scanStr_esc_inv e s r1 rest h3 with ⟨he, r2, e2, h4⟩ |
        ⟨he, a1, a2, a3, a4, s', r5, hs, hhex, e5, h4⟩
      · subst h2 e2
        obtain ⟨F', rfl⟩ : ∃ F', F = F' + 1 := ⟨F - 1, by simp at hF; omega⟩
        obtain ⟨v, hv⟩ := unquoteLoop_scanned_escape F' e r2 he
        have := ih s r2 rest (by simp at hn; omega) h4 F' (by simp at hF; omega)
        rw [hv]
        simpa using this
      · subst h2 e5 he
        obtain ⟨F', rfl⟩ : ∃ F', F = F' + 1 := ⟨F - 1, by simp at hF; omega⟩
        have hg : getu4 (92 :: 117 :: a1 :: a2 :: a3 :: a4 :: r5)
            = ((hexVal a1 * 4096 + hexVal a2 * 256 + hexVal a3 * 16 + hexVal a4 : Nat) : Int) := by
          simp only [getu4, hhex, and_self, if_true]
        have hnn : ¬ (((hexVal a1 * 4096 + hexVal a2 * 256 + hexVal a3 * 16 + hexVal a4 : Nat)
            : Int) < 0) := by omega
        have h5 := ih s' r5 rest (by simp at hn; omega) h4 F' (by simp at hF; omega)
        simp only [unquoteLoop, show (117 : Nat) ≠ 34 by decide, show (117 : Nat) ≠ 92 by decide,
          show (117 : Nat) ≠ 47 by decide, show (117 : Nat) ≠ 39 by decide,
          show (117 : Nat) ≠ 98 by decide, show (117 : Nat) ≠ 102 by decide,
          show (117 : Nat) ≠ 110 by decide, show (117 : Nat) ≠ 114 by decide,
          show (117 : Nat) ≠ 116 by decide, or_self, if_false, if_true, hg, hnn,
          List.drop_succ_cons, List.drop_zero]
        split_ifs with hsur hpair
        · obtain ⟨g1, g2, g3, g4, t, ht⟩ := getu4_nonneg r5 (by omega)
          obtain ⟨s'', hs''⟩ := scanStr_drop_escape g1 g2 g3 g4 t s' r5 rest h4 ht
          have h6 := ih s'' t rest (by simp [ht] at hn; omega) hs'' F'
            (by simp [ht] at hF; omega)
          simp only [ht, List.drop_succ_cons, List.drop_zero, Option.isSome_map']
          exact h6
        · simpa using h5
        · simpa using h5
    · -- a byte that is copied
      subst h2
      obtain ⟨F', rfl⟩ : ∃ F', F = F' + 1 := ⟨F - 1, by simp at hF; omega⟩
      by_cases hc : c < 128
      · rw [unquoteLoop_plain_byte F' c r1 ⟨h34, h92, h32, hc⟩]
        have := ih s r1 rest (by simp at hn; omega) h3 F' (by simp at hF; omega)
        simpa using this
      · rcases DecodeRune_cases c r1 hc with hd | hrune
        · have h1 := ih s r1 rest (by simp at hn; omega) h3 F' (by simp at hF; omega)
          have e2 : ¬ (c = 34 ∨ c < 32) := by omega
          simp only [unquoteLoop, h92, e2, hc, if_false, hd, List.drop_succ_cons,
            List.drop_zero]
          simpa using h1
        · have hsz := hrune.size
          rw [unquoteLoop_rune F' _ _ _ hrune]
          have hscan := scanStr_drop_plain (DecodeRune (c :: r1)).2 (c :: s) (c :: r1) rest h
            (fun b hb => by have := hrune.high b hb; omega)
          have h1 := ih _ _ rest (by
              simp only [List.length_drop, List.length_cons] at hn ⊢; omega) hscan F' (by
              simp only [List.length_drop, List.length_cons] at hF ⊢; omega)
          simpa using h1

theorem unquoteBytes_of_scanned (s raw rest : GoString)
    (h : scanStr StrState.inString s = some (raw, rest)) : (unquoteBytes raw).isSome = true :=
  unquoteLoop_of_scanned raw.length s raw rest (Nat.le_refl _) h raw.length (Nat.le_refl _)

/-- A string literal is parsed exactly when the scanner accepts it. -/
theorem parseString_isSome_iff (s : GoString) :
    (parseString s).isSome = (scanStr StrState.inString s).isSome := by
  unfold parseString
  cases h : scanStr StrState.inString s with
  | none => rfl
  | some r =>
    obtain ⟨raw, rest⟩ := r
    have := unquoteBytes_of_scanned s raw rest h
    cases hu : unquoteBytes raw with
    | none => rw [hu] at this; simp at this
    | some v => simp [hu]

/-! ## `encoding/json`: an integer is read back -/

theorem parseValue_null (f d : Nat) (X : GoString) :
    parseValue (f + 1) d (110 :: 117 :: 108 :: 108 :: X) = some (JValue.null, X) := by
  simp [parseValue, HasPrefix]

set_option maxRecDepth 100000 in
/-- The test `TestJSON` of the repository: the configuration in lower-case keys decodes without
error to the five values that the test asserts. -/
theorem TestJSON :
    Unmarshal config.setField
        (ascii "\x7b\n\t\t\"tlsskipverify\":true,\n\t\t\"url\":\"url\",\n\t\t\"method\":\"method\",\n\t\t\"refreshanticipationinmillisecond\":1001,\n\t\t\"parameters\":\x7b\"test\":\"test\"\x7d\n\t\x7d")
        config.zero
      = (⟨ascii "url", ascii "method", true, 1001, some [(ascii "test", ascii "test")]⟩, none) := by
  decide

end QLight
